import Mathlib

/-!
Verification of the scope/symbol binder core of a TypeScript language server.

The development shallowly embeds the Rust sources:
  * `src/analysis/symbol.rs`        (`SymbolId`, `SymbolFlags`, `Symbol`)
  * `src/analysis/scope.rs`         (`ScopeKind`, `Scope`)
  * `src/analysis/symbol_table.rs`  (`SymbolTable` and its operations)
  * `src/analysis/binder.rs`        (`Binder`, `bind_document`)

Rust `HashMap`s are modelled as association lists with insert-overwrite
semantics; `u32` ids are modelled as `Nat` (no arithmetic in the code can
overflow a `u32` counter in any execution we reason about, and ids are only
compared for equality).  Loops that are not structurally terminating in the
source (`SymbolTable::lookup`, `find_scope_at_position`) are embedded with
explicit fuel, where result `none` means the loop is still running after
`fuel` steps and `some r` means it returned `r`.
-/

namespace TsAnalysis

/-- `tower_lsp::lsp_types::Position`: zero-based line/character. -/
structure Position where
  line : Nat
  character : Nat
deriving DecidableEq

/-- The derived `PartialOrd` on `Position` is lexicographic (line, character). -/
def posLE (a b : Position) : Bool :=
  decide (a.line < b.line ∨ (a.line = b.line ∧ a.character ≤ b.character))

/-- `tower_lsp::lsp_types::Range`. -/
structure Range where
  start : Position
  endPos : Position
deriving DecidableEq

/-! ### Association-list model of `HashMap` -/

/-- `HashMap::get`. -/
def mapGet {κ β : Type} [DecidableEq κ] : List (κ × β) → κ → Option β
  | [], _ => none
  | (k, v) :: rest, x => if k = x then some v else mapGet rest x

/-- `HashMap::insert` (overwrites an existing binding of the key). -/
def mapInsert {κ β : Type} [DecidableEq κ] : List (κ × β) → κ → β → List (κ × β)
  | [], x, v => [(x, v)]
  | (k, w) :: rest, x, v =>
    if k = x then (x, v) :: rest else (k, w) :: mapInsert rest x v

/-- `HashMap::get_mut` followed by an in-place update; absent keys are left
alone (the `if let Some(_) = get_mut(..)` pattern in the source). -/
def mapModify {κ β : Type} [DecidableEq κ] : List (κ × β) → κ → (β → β) → List (κ × β)
  | [], _, _ => []
  | (k, w) :: rest, x, f =>
    if k = x then (k, f w) :: rest else (k, w) :: mapModify rest x f

theorem mapGet_mapInsert {κ β : Type} [DecidableEq κ] (m : List (κ × β)) (k : κ) (v : β)
    (x : κ) : mapGet (mapInsert m k v) x = if x = k then some v else mapGet m x := by
  induction m with
  | nil =>
    by_cases h : k = x
    · subst h
      simp [mapGet, mapInsert]
    · have h' : ¬ x = k := fun e => h e.symm
      simp [mapGet, mapInsert, h, h']
  | cons hd tl ih =>
    obtain ⟨k', w⟩ := hd
    by_cases hk : k' = k
    · subst hk
      by_cases hx : k' = x
      · subst hx
        simp [mapGet, mapInsert]
      · have hx' : ¬ x = k' := fun e => hx e.symm
        simp [mapGet, mapInsert, hx, hx']
    · by_cases hx : k' = x
      · subst hx
        have hxk : ¬ k' = k := hk
        simp [mapGet, mapInsert, hk, hxk]
      · simp [mapGet, mapInsert, hk, hx, ih]

theorem mapGet_mapModify {κ β : Type} [DecidableEq κ] (m : List (κ × β)) (k : κ) (f : β → β)
    (x : κ) : mapGet (mapModify m k f) x
      = if x = k then (mapGet m k).map f else mapGet m x := by
  induction m with
  | nil =>
    by_cases h : x = k <;> simp [mapGet, mapModify, h]
  | cons hd tl ih =>
    obtain ⟨k', w⟩ := hd
    by_cases hk : k' = k
    · subst hk
      by_cases hx : k' = x
      · subst hx
        simp [mapGet, mapModify]
      · have hx' : ¬ x = k' := fun e => hx e.symm
        simp [mapGet, mapModify, hx, hx']
    · by_cases hx : k' = x
      · subst hx
        have hxk : ¬ k' = k := hk
        simp [mapGet, mapModify, hk, hxk]
      · simp [mapGet, mapModify, hk, hx, ih]

theorem mapModify_absent {κ β : Type} [DecidableEq κ] (m : List (κ × β)) (k : κ) (f : β → β)
    (h : mapGet m k = none) : mapModify m k f = m := by
  induction m with
  | nil => rfl
  | cons hd tl ih =>
    obtain ⟨k', w⟩ := hd
    by_cases hk : k' = k
    · subst hk
      simp [mapGet] at h
    · simp [mapGet, hk] at h
      simp [mapModify, hk, ih h]

/-! ### `symbol.rs` -/

/-! Bit constants of the `SymbolFlags` bitset (a `u32` in the source). -/

namespace SymbolFlags

def VARIABLE : Nat := 1
def FUNCTION : Nat := 2
def CLASS : Nat := 4
def INTERFACE : Nat := 8
def ENUM : Nat := 16
def TYPE_ALIAS : Nat := 32
def PARAMETER : Nat := 64
def PROPERTY : Nat := 128
def METHOD : Nat := 256
def NAMESPACE : Nat := 512
def ENUM_MEMBER : Nat := 1024
def TYPE_PARAMETER : Nat := 2048
def CONST : Nat := 65536
def LET : Nat := 131072
def EXPORTED : Nat := 262144
def DEFAULT : Nat := 524288
def ASYNC : Nat := 1048576
def STATIC : Nat := 2097152
def READONLY : Nat := 4194304
def PRIVATE : Nat := 8388608
def PROTECTED : Nat := 16777216
def PUBLIC : Nat := 33554432
def ABSTRACT : Nat := 67108864
def HOISTED : Nat := 268435456
def IMPORT : Nat := 536870912
def EXPORT : Nat := 1073741824

end SymbolFlags

/-- `bitflags` `intersects`: the two bitsets share a set bit. -/
def flagsIntersects (a b : Nat) : Bool := decide (a &&& b ≠ 0)

/-- `Symbol` (the `SymbolId` newtype is modelled directly as `Nat`). -/
structure Symbol where
  id : Nat
  name : String
  flags : Nat
  declaration_range : Range
  name_range : Range
  references : List Range
  scope_id : Nat
  doc : Option String
deriving DecidableEq

/-- `Symbol::new`. -/
def Symbol.new (id : Nat) (name : String) (flags : Nat)
    (declaration_range name_range : Range) (scope_id : Nat) : Symbol :=
  { id := id, name := name, flags := flags, declaration_range := declaration_range,
    name_range := name_range, references := [], scope_id := scope_id, doc := none }

/-- `Symbol::add_reference`: `Vec::push`. -/
def Symbol.add_reference (s : Symbol) (range : Range) : Symbol :=
  { s with references := s.references ++ [range] }

/-! ### `scope.rs` -/

inductive ScopeKind where
  | Global
  | Function
  | Block
  | Class
  | ForLoop
  | Catch
  | Switch
  | With
deriving DecidableEq

structure Scope where
  id : Nat
  kind : ScopeKind
  parent : Option Nat
  children : List Nat
  range : Range
  symbols : List (String × Nat)
  type_symbols : List (String × Nat)
deriving DecidableEq

/-- `Scope::new`. -/
def Scope.new (id : Nat) (kind : ScopeKind) (parent : Option Nat) (range : Range) : Scope :=
  { id := id, kind := kind, parent := parent, children := [], range := range,
    symbols := [], type_symbols := [] }

/-- `Scope::add_symbol`. -/
def Scope.add_symbol (s : Scope) (name : String) (symbol_id : Nat) : Scope :=
  { s with symbols := mapInsert s.symbols name symbol_id }

/-- `Scope::add_type_symbol`. -/
def Scope.add_type_symbol (s : Scope) (name : String) (symbol_id : Nat) : Scope :=
  { s with type_symbols := mapInsert s.type_symbols name symbol_id }

/-- `Scope::lookup_local`. -/
def Scope.lookup_local (s : Scope) (name : String) : Option Nat :=
  mapGet s.symbols name

/-- `Scope::lookup_type_local`. -/
def Scope.lookup_type_local (s : Scope) (name : String) : Option Nat :=
  mapGet s.type_symbols name

/-- `Scope::contains_position`: `pos >= range.start && pos <= range.end`. -/
def Scope.contains_position (s : Scope) (pos : Position) : Bool :=
  posLE s.range.start pos && posLE pos s.range.endPos

/-! ### `symbol_table.rs` -/

structure SymbolTable where
  symbols : List (Nat × Symbol)
  scopes : List (Nat × Scope)
  root_scope_id : Nat
  next_symbol_id : Nat
  next_scope_id : Nat
deriving DecidableEq

/-- `SymbolTable::new`: only the global scope 0, covering a maximal range
(`u32::MAX` is 4294967295). -/
def SymbolTable.new : SymbolTable :=
  { symbols := []
    scopes := [(0, Scope.new 0 ScopeKind.Global none
      { start := ⟨0, 0⟩, endPos := ⟨4294967295, 0⟩ })]
    root_scope_id := 0
    next_symbol_id := 0
    next_scope_id := 1 }

/-- `SymbolTable::get_symbol`. -/
def SymbolTable.get_symbol (t : SymbolTable) (id : Nat) : Option Symbol :=
  mapGet t.symbols id

/-- `SymbolTable::get_scope`. -/
def SymbolTable.get_scope (t : SymbolTable) (id : Nat) : Option Scope :=
  mapGet t.scopes id

/-- The flag set `INTERFACE | TYPE_ALIAS | TYPE_PARAMETER` used by
`create_symbol` to route a symbol into the type namespace. -/
def typeRoutingFlags : Nat :=
  SymbolFlags.INTERFACE ||| SymbolFlags.TYPE_ALIAS ||| SymbolFlags.TYPE_PARAMETER

/-- `SymbolTable::create_symbol`; returns the fresh id together with the
updated table (the Rust method mutates `self`). -/
def SymbolTable.create_symbol (t : SymbolTable) (name : String) (flags : Nat)
    (declaration_range name_range : Range) (scope_id : Nat) : Nat × SymbolTable :=
  let id := t.next_symbol_id
  let sym := Symbol.new id name flags declaration_range name_range scope_id
  let scopes' := mapModify t.scopes scope_id (fun scope =>
    if flagsIntersects flags typeRoutingFlags then
      scope.add_type_symbol name id
    else
      scope.add_symbol name id)
  (id, { t with
          next_symbol_id := id + 1
          scopes := scopes'
          symbols := mapInsert t.symbols id sym })

/-- `SymbolTable::create_scope`.  Note the source inserts the new scope into
the map before looking up `parent_id`, so a call with
`parent_id = next_scope_id` links the new scope to itself. -/
def SymbolTable.create_scope (t : SymbolTable) (kind : ScopeKind) (parent_id : Nat)
    (range : Range) : Nat × SymbolTable :=
  let id := t.next_scope_id
  let scope := Scope.new id kind (some parent_id) range
  let scopes1 := mapInsert t.scopes id scope
  let scopes2 := mapModify scopes1 parent_id
    (fun parent => { parent with children := parent.children ++ [id] })
  (id, { t with next_scope_id := id + 1, scopes := scopes2 })

/-- `SymbolTable::add_reference`: no-op when the id is unknown. -/
def SymbolTable.add_reference (t : SymbolTable) (symbol_id : Nat) (range : Range) :
    SymbolTable :=
  { t with symbols := mapModify t.symbols symbol_id (fun s => s.add_reference range) }

/-- `SymbolTable::find_references`. -/
def SymbolTable.find_references (t : SymbolTable) (symbol_id : Nat) : List Range :=
  match t.get_symbol symbol_id with
  | some sym => sym.name_range :: sym.references
  | none => []

/-- One step of the `while let Some(id) = current_scope_id` loop of
`SymbolTable::lookup`, with explicit fuel.  `none` means the loop has not
finished within `fuel` iterations; `some r` means it returned `r`. -/
def SymbolTable.lookupGo (t : SymbolTable) (name : String) :
    Nat → Option Nat → Option (Option Nat)
  | _, none => some none
  | 0, some _ => none
  | fuel + 1, some id =>
    match t.get_scope id with
    | none => some none
    | some scope =>
      match scope.lookup_local name with
      | some symbol_id => some (some symbol_id)
      | none => t.lookupGo name fuel scope.parent

/-- Same for `SymbolTable::lookup_type`. -/
def SymbolTable.lookupTypeGo (t : SymbolTable) (name : String) :
    Nat → Option Nat → Option (Option Nat)
  | _, none => some none
  | 0, some _ => none
  | fuel + 1, some id =>
    match t.get_scope id with
    | none => some none
    | some scope =>
      match scope.lookup_type_local name with
      | some symbol_id => some (some symbol_id)
      | none => t.lookupTypeGo name fuel scope.parent

/-- `lookup(name, scope_id)` terminates and returns `r`. -/
def LookupReturns (t : SymbolTable) (name : String) (scope_id : Nat) (r : Option Nat) : Prop :=
  ∃ fuel, t.lookupGo name fuel (some scope_id) = some r

/-- `lookup_type(name, scope_id)` terminates and returns `r`. -/
def LookupTypeReturns (t : SymbolTable) (name : String) (scope_id : Nat) (r : Option Nat) :
    Prop :=
  ∃ fuel, t.lookupTypeGo name fuel (some scope_id) = some r

/-- `lookup(name, scope_id)` terminates at all. -/
def LookupTerminates (t : SymbolTable) (name : String) (scope_id : Nat) : Prop :=
  ∃ r, LookupReturns t name scope_id r

/-- First existing child (in `children` order) whose range contains `pos`:
the `for &child_id in &scope.children` loop of `find_scope_at_position`. -/
def firstContainingChild (t : SymbolTable) (pos : Position) : List Nat → Option Nat
  | [] => none
  | c :: rest =>
    match t.get_scope c with
    | some cs => if cs.contains_position pos then some c else firstContainingChild t pos rest
    | none => firstContainingChild t pos rest

/-- `SymbolTable::find_scope_at_position`, with explicit fuel for the
recursive descent (`none` = still descending after `fuel` steps). -/
def SymbolTable.findScopeGo (t : SymbolTable) (pos : Position) : Nat → Nat → Option Nat
  | 0, _ => none
  | fuel + 1, scope_id =>
    match t.get_scope scope_id with
    | none => some t.root_scope_id
    | some scope =>
      match firstContainingChild t pos scope.children with
      | some c => t.findScopeGo pos fuel c
      | none =>
        if scope.contains_position pos then some scope_id else some t.root_scope_id

/-- `scope_at_position(pos)` terminates and returns `r`. -/
def ScopeAtPosReturns (t : SymbolTable) (pos : Position) (r : Nat) : Prop :=
  ∃ fuel, t.findScopeGo pos fuel t.root_scope_id = some r

/-! ### The scope chain walked by `lookup` -/

/-- `Chain t o ch`: starting from `o`, the `lookup` loop visits exactly the
scopes `ch` and then stops (either the parent link is `none` or it points
at an id missing from the scope map). -/
inductive Chain (t : SymbolTable) : Option Nat → List Nat → Prop where
  | nil : Chain t none []
  | missing {id : Nat} : t.get_scope id = none → Chain t (some id) []
  | cons {id : Nat} {s : Scope} {ch : List Nat} :
      t.get_scope id = some s → Chain t s.parent ch → Chain t (some id) (id :: ch)

/-- The value-namespace hit of a single scope (none if the scope is missing). -/
def localHit (t : SymbolTable) (name : String) (id : Nat) : Option Nat :=
  match t.get_scope id with
  | some s => s.lookup_local name
  | none => none

/-- The type-namespace hit of a single scope. -/
def localTypeHit (t : SymbolTable) (name : String) (id : Nat) : Option Nat :=
  match t.get_scope id with
  | some s => s.lookup_type_local name
  | none => none

/-- First value-namespace hit along a list of scope ids. -/
def firstHit (t : SymbolTable) (name : String) : List Nat → Option Nat
  | [] => none
  | id :: rest =>
    match localHit t name id with
    | some sid => some sid
    | none => firstHit t name rest

/-- First type-namespace hit along a list of scope ids. -/
def firstTypeHit (t : SymbolTable) (name : String) : List Nat → Option Nat
  | [] => none
  | id :: rest =>
    match localTypeHit t name id with
    | some sid => some sid
    | none => firstTypeHit t name rest

theorem lookupGo_of_chain (t : SymbolTable) (name : String) {o : Option Nat} {ch : List Nat}
    (h : Chain t o ch) :
    t.lookupGo name (ch.length + 1) o = some (firstHit t name ch) := by
  induction h with
  | nil => rfl
  | missing hid => simp [SymbolTable.lookupGo, hid, firstHit]
  | cons hs hc ih =>
    rename_i id s ch
    show t.lookupGo name (ch.length + 1 + 1) (some id) = _
    cases hl : s.lookup_local name with
    | some sid =>
      simp [SymbolTable.lookupGo, hs, hl, firstHit, localHit]
    | none =>
      simp [SymbolTable.lookupGo, hs, hl, firstHit, localHit]
      exact ih

theorem lookupTypeGo_of_chain (t : SymbolTable) (name : String) {o : Option Nat}
    {ch : List Nat} (h : Chain t o ch) :
    t.lookupTypeGo name (ch.length + 1) o = some (firstTypeHit t name ch) := by
  induction h with
  | nil => rfl
  | missing hid => simp [SymbolTable.lookupTypeGo, hid, firstTypeHit]
  | cons hs hc ih =>
    rename_i id s ch
    show t.lookupTypeGo name (ch.length + 1 + 1) (some id) = _
    cases hl : s.lookup_type_local name with
    | some sid =>
      simp [SymbolTable.lookupTypeGo, hs, hl, firstTypeHit, localTypeHit]
    | none =>
      simp [SymbolTable.lookupTypeGo, hs, hl, firstTypeHit, localTypeHit]
      exact ih

theorem lookupGo_mono (t : SymbolTable) (name : String) :
    ∀ (fuel fuel' : Nat) (o : Option Nat) (r : Option Nat), fuel ≤ fuel' →
      t.lookupGo name fuel o = some r → t.lookupGo name fuel' o = some r := by
  intro fuel
  induction fuel with
  | zero =>
    intro fuel' o r _ h
    cases o with
    | none =>
      cases fuel' <;> simpa [SymbolTable.lookupGo] using h
    | some id => simp [SymbolTable.lookupGo] at h
  | succ n ih =>
    intro fuel' o r hle h
    cases o with
    | none =>
      cases fuel' <;> simpa [SymbolTable.lookupGo] using h
    | some id =>
      obtain ⟨m, rfl⟩ : ∃ m, fuel' = m + 1 := ⟨fuel' - 1, by omega⟩
      cases hs : t.get_scope id with
      | none =>
        simp [SymbolTable.lookupGo, hs] at h ⊢
        exact h
      | some s =>
        cases hl : s.lookup_local name with
        | some sid =>
          simp [SymbolTable.lookupGo, hs, hl] at h ⊢
          exact h
        | none =>
          simp [SymbolTable.lookupGo, hs, hl] at h ⊢
          exact ih m s.parent r (by omega) h

theorem lookupTypeGo_mono (t : SymbolTable) (name : String) :
    ∀ (fuel fuel' : Nat) (o : Option Nat) (r : Option Nat), fuel ≤ fuel' →
      t.lookupTypeGo name fuel o = some r → t.lookupTypeGo name fuel' o = some r := by
  intro fuel
  induction fuel with
  | zero =>
    intro fuel' o r _ h
    cases o with
    | none =>
      cases fuel' <;> simpa [SymbolTable.lookupTypeGo] using h
    | some id => simp [SymbolTable.lookupTypeGo] at h
  | succ n ih =>
    intro fuel' o r hle h
    cases o with
    | none =>
      cases fuel' <;> simpa [SymbolTable.lookupTypeGo] using h
    | some id =>
      obtain ⟨m, rfl⟩ : ∃ m, fuel' = m + 1 := ⟨fuel' - 1, by omega⟩
      cases hs : t.get_scope id with
      | none =>
        simp [SymbolTable.lookupTypeGo, hs] at h ⊢
        exact h
      | some s =>
        cases hl : s.lookup_type_local name with
        | some sid =>
          simp [SymbolTable.lookupTypeGo, hs, hl] at h ⊢
          exact h
        | none =>
          simp [SymbolTable.lookupTypeGo, hs, hl] at h ⊢
          exact ih m s.parent r (by omega) h

theorem lookupReturns_unique {t : SymbolTable} {name : String} {scope_id : Nat}
    {r r' : Option Nat} (h : LookupReturns t name scope_id r)
    (h' : LookupReturns t name scope_id r') : r = r' := by
  obtain ⟨f, hf⟩ := h
  obtain ⟨f', hf'⟩ := h'
  rcases Nat.le_total f f' with hle | hle
  · have h2 := lookupGo_mono t name f f' _ _ hle hf
    rw [h2] at hf'
    exact Option.some_injective _ hf'
  · have h2 := lookupGo_mono t name f' f _ _ hle hf'
    rw [h2] at hf
    exact (Option.some_injective _ hf).symm

theorem lookupTypeReturns_unique {t : SymbolTable} {name : String} {scope_id : Nat}
    {r r' : Option Nat} (h : LookupTypeReturns t name scope_id r)
    (h' : LookupTypeReturns t name scope_id r') : r = r' := by
  obtain ⟨f, hf⟩ := h
  obtain ⟨f', hf'⟩ := h'
  rcases Nat.le_total f f' with hle | hle
  · have h2 := lookupTypeGo_mono t name f f' _ _ hle hf
    rw [h2] at hf'
    exact Option.some_injective _ hf'
  · have h2 := lookupTypeGo_mono t name f' f _ _ hle hf'
    rw [h2] at hf
    exact (Option.some_injective _ hf).symm

theorem firstHit_eq_none_iff (t : SymbolTable) (name : String) (ch : List Nat) :
    firstHit t name ch = none ↔ ∀ id ∈ ch, localHit t name id = none := by
  induction ch with
  | nil => simp [firstHit]
  | cons id rest ih =>
    cases hl : localHit t name id with
    | some sid => simp [firstHit, hl]
    | none => simp [firstHit, hl, ih]

/-! ### Claim C1 -/

/-- What claim C1 asserts about `lookup` and `lookup_type` from `scope_id`
when the parent-chain walk visits exactly the scopes in `ch`: the returned
value is the first hit along the chain (`none` iff no scope on the chain
maps the name in the respective namespace), and a locally declared name
shadows any ancestor declaration. -/
def LookupChainSpec (t : SymbolTable) (name : String) (scope_id : Nat) (ch : List Nat) :
    Prop :=
  LookupReturns t name scope_id (firstHit t name ch)
  ∧ (∀ r, LookupReturns t name scope_id r → r = firstHit t name ch)
  ∧ LookupTypeReturns t name scope_id (firstTypeHit t name ch)
  ∧ (∀ r, LookupTypeReturns t name scope_id r → r = firstTypeHit t name ch)
  ∧ (firstHit t name ch = none ↔ ∀ id ∈ ch, localHit t name id = none)
  ∧ (∀ cid, localHit t name scope_id = some cid → LookupReturns t name scope_id (some cid))

/-- Claim C1: `lookup(name, scope_id)` walks the scope chain from `scope_id`
through successive parents and returns the first scope's value-namespace hit,
`none` when no scope on the chain maps the name; a child declaration shadows
an ancestor's; `lookup_type` does the same over the type namespace. -/
theorem c1_lookup_walks_scope_chain (t : SymbolTable) (name : String) (scope_id : Nat)
    (ch : List Nat) (hch : Chain t (some scope_id) ch) :
    LookupChainSpec t name scope_id ch := by
  have hmain : LookupReturns t name scope_id (firstHit t name ch) :=
    ⟨ch.length + 1, lookupGo_of_chain t name hch⟩
  have htype : LookupTypeReturns t name scope_id (firstTypeHit t name ch) :=
    ⟨ch.length + 1, lookupTypeGo_of_chain t name hch⟩
  refine ⟨hmain, fun r hr => lookupReturns_unique hr hmain, htype,
    fun r hr => lookupTypeReturns_unique hr htype,
    firstHit_eq_none_iff t name ch, fun cid hcid => ?_⟩
  unfold localHit at hcid
  cases hs : t.get_scope scope_id with
  | none => rw [hs] at hcid; cases hcid
  | some s =>
    rw [hs] at hcid
    have hl : s.lookup_local name = some cid := hcid
    exact ⟨1, by simp [SymbolTable.lookupGo, hs, hl]⟩

/-- Fixed range used by concrete witness tables. -/
def rW : Range := { start := ⟨1, 0⟩, endPos := ⟨3, 0⟩ }

/-- Witness table for C1: scope 1 is a child of the global scope and both
scopes declare a value symbol named x (ids 0 and 1 respectively). -/
def chainWitnessTable : SymbolTable :=
  let t1 := (SymbolTable.new.create_scope ScopeKind.Block 0 rW).2
  let t2 := (t1.create_symbol "x" SymbolFlags.VARIABLE rW rW 0).2
  (t2.create_symbol "x" SymbolFlags.VARIABLE rW rW 1).2

/-- Witness for C1 at a concrete input: the chain from scope 1 is `[1, 0]`. -/
theorem c1_lookup_walks_scope_chain_witness :
    Chain chainWitnessTable (some 1) [1, 0]
      ∧ LookupChainSpec chainWitnessTable "x" 1 [1, 0] :=
  have hch : Chain chainWitnessTable (some 1) [1, 0] :=
    Chain.cons rfl (Chain.cons rfl Chain.nil)
  ⟨hch, c1_lookup_walks_scope_chain chainWitnessTable "x" 1 [1, 0] hch⟩

/-! ### Claim C3 -/

/-- What claim C3 asserts about `find_references` for a known symbol `sym`
stored under `symbol_id`: the result is the name range followed by the
recorded references in order, and a newly recorded reference is appended at
the end. -/
def FindReferencesSpec (t : SymbolTable) (symbol_id : Nat) (sym : Symbol) : Prop :=
  t.find_references symbol_id = sym.name_range :: sym.references
  ∧ ∀ r : Range, (t.add_reference symbol_id r).find_references symbol_id
      = sym.name_range :: (sym.references ++ [r])

/-- Claim C3: for every symbol known to the table, `find_references` returns
its name range followed by exactly the recorded reference ranges in
recording order. -/
theorem c3_find_references_order (t : SymbolTable) (symbol_id : Nat) (sym : Symbol)
    (h : t.get_symbol symbol_id = some sym) : FindReferencesSpec t symbol_id sym := by
  constructor
  · simp [SymbolTable.find_references, h]
  · intro r
    have h2 : (t.add_reference symbol_id r).get_symbol symbol_id
        = some (sym.add_reference r) := by
      simp only [SymbolTable.add_reference, SymbolTable.get_symbol] at h ⊢
      simp [mapGet_mapModify, h]
    simp [SymbolTable.find_references, h2, Symbol.add_reference]

/-- Witness table holding one symbol, id 0, named x, in scope 0. -/
def refWitnessTable : SymbolTable :=
  (SymbolTable.new.create_symbol "x" SymbolFlags.VARIABLE rW rW 0).2

/-- The symbol stored in `refWitnessTable`. -/
def symW : Symbol := Symbol.new 0 "x" SymbolFlags.VARIABLE rW rW 0

/-- Witness for C3 at a concrete input. -/
theorem c3_find_references_order_witness :
    refWitnessTable.get_symbol 0 = some symW ∧ FindReferencesSpec refWitnessTable 0 symW :=
  ⟨rfl, c3_find_references_order refWitnessTable 0 symW rfl⟩

/-! ### Claim C7 -/

/-- What claim C7 asserts about `add_reference`: unknown ids leave the table
unchanged; a known id gets the range appended to exactly that symbol's
reference list, and nothing else changes. -/
def AddReferenceSpec (t : SymbolTable) (symbol_id : Nat) (range : Range) : Prop :=
  (t.get_symbol symbol_id = none → t.add_reference symbol_id range = t)
  ∧ ∀ sym, t.get_symbol symbol_id = some sym →
      (t.add_reference symbol_id range).get_symbol symbol_id
          = some { sym with references := sym.references ++ [range] }
      ∧ (∀ k, k ≠ symbol_id → (t.add_reference symbol_id range).get_symbol k
          = t.get_symbol k)
      ∧ (t.add_reference symbol_id range).scopes = t.scopes
      ∧ (t.add_reference symbol_id range).root_scope_id = t.root_scope_id
      ∧ (t.add_reference symbol_id range).next_symbol_id = t.next_symbol_id
      ∧ (t.add_reference symbol_id range).next_scope_id = t.next_scope_id

/-- Claim C7: `add_reference` with an unknown id is a no-op on the whole
table; with a known id it appends the range to that symbol's references and
changes nothing else. -/
theorem c7_add_reference_noop_or_append (t : SymbolTable) (symbol_id : Nat)
    (range : Range) : AddReferenceSpec t symbol_id range := by
  constructor
  · intro h
    simp only [SymbolTable.get_symbol] at h
    simp only [SymbolTable.add_reference, mapModify_absent t.symbols symbol_id _ h]
  · intro sym h
    simp only [SymbolTable.get_symbol] at h
    refine ⟨?_, ?_, rfl, rfl, rfl, rfl⟩
    · simp [SymbolTable.add_reference, SymbolTable.get_symbol, mapGet_mapModify, h,
        Symbol.add_reference]
    · intro k hk
      simp [SymbolTable.add_reference, SymbolTable.get_symbol, mapGet_mapModify, hk]

/-- Witness for C7 at concrete inputs: id 99 is unknown (no-op), id 0 is
known (append). -/
theorem c7_add_reference_noop_or_append_witness :
    refWitnessTable.add_reference 99 rW = refWitnessTable
      ∧ (refWitnessTable.add_reference 0 rW).get_symbol 0
          = some { symW with references := symW.references ++ [rW] } :=
  ⟨(c7_add_reference_noop_or_append refWitnessTable 99 rW).1 rfl,
   ((c7_add_reference_noop_or_append refWitnessTable 0 rW).2 symW rfl).1⟩

/-! ### Claim C10 -/

/-- Claim C10: `find_references` with an id unknown to the table returns the
empty list. -/
theorem c10_find_references_unknown (t : SymbolTable) (symbol_id : Nat)
    (h : t.get_symbol symbol_id = none) : t.find_references symbol_id = [] := by
  simp [SymbolTable.find_references, h]

/-- Witness for C10 at a concrete input. -/
theorem c10_find_references_unknown_witness :
    SymbolTable.new.get_symbol 5 = none ∧ SymbolTable.new.find_references 5 = [] :=
  ⟨rfl, c10_find_references_unknown SymbolTable.new 5 rfl⟩

/-! ### Field-level unfolding lemmas for the mutators -/

@[simp]
theorem create_symbol_fst (t : SymbolTable) (name : String) (flags : Nat)
    (dr nr : Range) (scope_id : Nat) :
    (t.create_symbol name flags dr nr scope_id).1 = t.next_symbol_id := rfl

@[simp]
theorem create_symbol_symbols (t : SymbolTable) (name : String) (flags : Nat)
    (dr nr : Range) (scope_id : Nat) :
    (t.create_symbol name flags dr nr scope_id).2.symbols
      = mapInsert t.symbols t.next_symbol_id
          (Symbol.new t.next_symbol_id name flags dr nr scope_id) := rfl

@[simp]
theorem create_symbol_scopes (t : SymbolTable) (name : String) (flags : Nat)
    (dr nr : Range) (scope_id : Nat) :
    (t.create_symbol name flags dr nr scope_id).2.scopes
      = mapModify t.scopes scope_id (fun scope =>
          if flagsIntersects flags typeRoutingFlags then
            scope.add_type_symbol name t.next_symbol_id
          else
            scope.add_symbol name t.next_symbol_id) := rfl

@[simp]
theorem create_symbol_next_symbol_id (t : SymbolTable) (name : String) (flags : Nat)
    (dr nr : Range) (scope_id : Nat) :
    (t.create_symbol name flags dr nr scope_id).2.next_symbol_id
      = t.next_symbol_id + 1 := rfl

@[simp]
theorem create_symbol_next_scope_id (t : SymbolTable) (name : String) (flags : Nat)
    (dr nr : Range) (scope_id : Nat) :
    (t.create_symbol name flags dr nr scope_id).2.next_scope_id = t.next_scope_id := rfl

@[simp]
theorem create_symbol_root (t : SymbolTable) (name : String) (flags : Nat)
    (dr nr : Range) (scope_id : Nat) :
    (t.create_symbol name flags dr nr scope_id).2.root_scope_id = t.root_scope_id := rfl

@[simp]
theorem create_scope_fst (t : SymbolTable) (kind : ScopeKind) (parent_id : Nat)
    (range : Range) : (t.create_scope kind parent_id range).1 = t.next_scope_id := rfl

@[simp]
theorem create_scope_scopes (t : SymbolTable) (kind : ScopeKind) (parent_id : Nat)
    (range : Range) :
    (t.create_scope kind parent_id range).2.scopes
      = mapModify (mapInsert t.scopes t.next_scope_id
            (Scope.new t.next_scope_id kind (some parent_id) range)) parent_id
          (fun parent => { parent with children := parent.children ++ [t.next_scope_id] })
      := rfl

@[simp]
theorem create_scope_symbols (t : SymbolTable) (kind : ScopeKind) (parent_id : Nat)
    (range : Range) : (t.create_scope kind parent_id range).2.symbols = t.symbols := rfl

@[simp]
theorem create_scope_next_scope_id (t : SymbolTable) (kind : ScopeKind) (parent_id : Nat)
    (range : Range) :
    (t.create_scope kind parent_id range).2.next_scope_id = t.next_scope_id + 1 := rfl

@[simp]
theorem create_scope_next_symbol_id (t : SymbolTable) (kind : ScopeKind) (parent_id : Nat)
    (range : Range) :
    (t.create_scope kind parent_id range).2.next_symbol_id = t.next_symbol_id := rfl

@[simp]
theorem create_scope_root (t : SymbolTable) (kind : ScopeKind) (parent_id : Nat)
    (range : Range) :
    (t.create_scope kind parent_id range).2.root_scope_id = t.root_scope_id := rfl

@[simp]
theorem add_reference_symbols (t : SymbolTable) (symbol_id : Nat) (range : Range) :
    (t.add_reference symbol_id range).symbols
      = mapModify t.symbols symbol_id (fun s => s.add_reference range) := rfl

@[simp]
theorem add_reference_scopes (t : SymbolTable) (symbol_id : Nat) (range : Range) :
    (t.add_reference symbol_id range).scopes = t.scopes := rfl

@[simp]
theorem add_reference_next_symbol_id (t : SymbolTable) (symbol_id : Nat) (range : Range) :
    (t.add_reference symbol_id range).next_symbol_id = t.next_symbol_id := rfl

@[simp]
theorem add_reference_next_scope_id (t : SymbolTable) (symbol_id : Nat) (range : Range) :
    (t.add_reference symbol_id range).next_scope_id = t.next_scope_id := rfl

@[simp]
theorem add_reference_root (t : SymbolTable) (symbol_id : Nat) (range : Range) :
    (t.add_reference symbol_id range).root_scope_id = t.root_scope_id := rfl

/-! ### Reachable table states -/

/-- Table states reachable from `SymbolTable::new` by arbitrary sequences of
the public mutators `create_symbol`, `create_scope` and `add_reference`. -/
inductive Reachable : SymbolTable → Prop where
  | new : Reachable SymbolTable.new
  | create_symbol {t : SymbolTable} (name : String) (flags : Nat)
      (dr nr : Range) (scope_id : Nat) :
      Reachable t → Reachable (t.create_symbol name flags dr nr scope_id).2
  | create_scope {t : SymbolTable} (kind : ScopeKind) (parent_id : Nat) (range : Range) :
      Reachable t → Reachable (t.create_scope kind parent_id range).2
  | add_reference {t : SymbolTable} (symbol_id : Nat) (range : Range) :
      Reachable t → Reachable (t.add_reference symbol_id range)

/-- In every reachable state, all stored symbol ids are below the counter. -/
theorem reachable_symbol_ids_lt {t : SymbolTable} (h : Reachable t) :
    ∀ k v, mapGet t.symbols k = some v → k < t.next_symbol_id := by
  induction h with
  | new => intro k v hk; simp [SymbolTable.new, mapGet] at hk
  | create_symbol name flags dr nr scope_id _ ih =>
    rename_i t0 hprev
    intro k v hk
    simp only [create_symbol_symbols] at hk
    rw [mapGet_mapInsert] at hk
    simp only [create_symbol_next_symbol_id]
    by_cases hkid : k = t0.next_symbol_id
    · omega
    · rw [if_neg hkid] at hk
      have := ih k v hk
      omega
  | create_scope kind parent_id range _ ih =>
    intro k v hk
    simp only [create_scope_symbols] at hk
    simp only [create_scope_next_symbol_id]
    exact ih k v hk
  | add_reference symbol_id range _ ih =>
    rename_i t0 hprev
    intro k v hk
    simp only [add_reference_symbols] at hk
    rw [mapGet_mapModify] at hk
    simp only [add_reference_next_symbol_id]
    by_cases hkid : k = symbol_id
    · rw [if_pos hkid] at hk
      cases hg : mapGet t0.symbols k with
      | none => rw [hkid] at hg; rw [hg] at hk; cases hk
      | some w => exact ih k w hg
    · rw [if_neg hkid] at hk
      exact ih k v hk

/-- The symbol-id counter is always fresh in a reachable state. -/
theorem reachable_next_symbol_fresh {t : SymbolTable} (h : Reachable t) :
    t.get_symbol t.next_symbol_id = none := by
  cases hg : t.get_symbol t.next_symbol_id with
  | none => rfl
  | some v =>
    have := reachable_symbol_ids_lt h t.next_symbol_id v hg
    omega

/-! ### Claim C2 -/

/-- What claim C2 asserts about one `create_symbol` call: a fresh id is
allocated, the symbol is retrievable, it lands in the type namespace of
`scope_id` iff the flags intersect `{INTERFACE, TYPE_ALIAS, TYPE_PARAMETER}`
(value namespace otherwise), and a missing `scope_id` changes no scope. -/
def CreateSymbolSpec (t : SymbolTable) (name : String) (flags : Nat) (dr nr : Range)
    (scope_id : Nat) : Prop :=
  (t.create_symbol name flags dr nr scope_id).1 = t.next_symbol_id
  ∧ t.get_symbol (t.create_symbol name flags dr nr scope_id).1 = none
  ∧ (t.create_symbol name flags dr nr scope_id).2.get_symbol t.next_symbol_id
      = some (Symbol.new t.next_symbol_id name flags dr nr scope_id)
  ∧ (∀ k, k ≠ t.next_symbol_id →
      (t.create_symbol name flags dr nr scope_id).2.get_symbol k = t.get_symbol k)
  ∧ (∀ s, t.get_scope scope_id = some s →
      (flagsIntersects flags typeRoutingFlags = true →
        (t.create_symbol name flags dr nr scope_id).2.get_scope scope_id
          = some (s.add_type_symbol name t.next_symbol_id))
      ∧ (flagsIntersects flags typeRoutingFlags = false →
        (t.create_symbol name flags dr nr scope_id).2.get_scope scope_id
          = some (s.add_symbol name t.next_symbol_id)))
  ∧ (∀ x, x ≠ scope_id →
      (t.create_symbol name flags dr nr scope_id).2.get_scope x = t.get_scope x)
  ∧ (t.get_scope scope_id = none →
      (t.create_symbol name flags dr nr scope_id).2.scopes = t.scopes)

/-- Claim C2: `create_symbol` allocates a fresh id, makes the symbol
retrievable, routes it into the type namespace iff the flags intersect the
type-routing set, and leaves every scope untouched when `scope_id` is
unknown. -/
theorem c2_create_symbol_routes (t : SymbolTable) (hreach : Reachable t) (name : String)
    (flags : Nat) (dr nr : Range) (scope_id : Nat) :
    CreateSymbolSpec t name flags dr nr scope_id := by
  refine ⟨rfl, ?_, ?_, ?_, ?_, ?_, ?_⟩
  · exact reachable_next_symbol_fresh hreach
  · simp only [SymbolTable.get_symbol, create_symbol_symbols]
    rw [mapGet_mapInsert, if_pos rfl]
  · intro k hk
    simp only [SymbolTable.get_symbol, create_symbol_symbols]
    rw [mapGet_mapInsert, if_neg hk]
  · intro s hs
    simp only [SymbolTable.get_scope] at hs
    constructor
    · intro hf
      simp only [SymbolTable.get_scope, create_symbol_scopes]
      rw [mapGet_mapModify, if_pos rfl, hs]
      simp [hf]
    · intro hf
      simp only [SymbolTable.get_scope, create_symbol_scopes]
      rw [mapGet_mapModify, if_pos rfl, hs]
      simp [hf]
  · intro x hx
    simp only [SymbolTable.get_scope, create_symbol_scopes]
    rw [mapGet_mapModify, if_neg hx]
  · intro hnone
    simp only [SymbolTable.get_scope] at hnone
    simp only [create_symbol_scopes]
    exact mapModify_absent _ _ _ hnone

/-- Witness for C2 at a concrete input (an interface symbol, routed into the
type namespace of scope 0 of a fresh table). -/
theorem c2_create_symbol_routes_witness :
    Reachable SymbolTable.new
      ∧ CreateSymbolSpec SymbolTable.new "I" SymbolFlags.INTERFACE rW rW 0 :=
  ⟨Reachable.new,
   c2_create_symbol_routes SymbolTable.new Reachable.new "I" SymbolFlags.INTERFACE rW rW 0⟩

/-! ### Claim C4 -/

/-- The descent described by claim C4: starting from a scope, move into the
first child (in creation order) whose range contains `pos`; when no child
contains `pos`, the current scope is the answer if its range contains `pos`,
and the global scope id 0 is the answer otherwise. -/
inductive DescendsFrom (t : SymbolTable) (pos : Position) : Nat → Nat → Prop where
  | step {sid : Nat} {s : Scope} {c r : Nat} :
      t.get_scope sid = some s → firstContainingChild t pos s.children = some c →
      DescendsFrom t pos c r → DescendsFrom t pos sid r
  | here {sid : Nat} {s : Scope} :
      t.get_scope sid = some s → firstContainingChild t pos s.children = none →
      s.contains_position pos = true → DescendsFrom t pos sid sid
  | top {sid : Nat} {s : Scope} :
      t.get_scope sid = some s → firstContainingChild t pos s.children = none →
      s.contains_position pos = false → DescendsFrom t pos sid 0

theorem findScopeGo_of_descends {t : SymbolTable} {pos : Position} {sid r : Nat}
    (h0 : t.root_scope_id = 0) (h : DescendsFrom t pos sid r) :
    ∃ fuel, t.findScopeGo pos fuel sid = some r := by
  induction h with
  | step hs hc _ ih =>
    obtain ⟨fuel, hf⟩ := ih
    exact ⟨fuel + 1, by simp [SymbolTable.findScopeGo, hs, hc, hf]⟩
  | here hs hc hin =>
    exact ⟨1, by simp [SymbolTable.findScopeGo, hs, hc, hin]⟩
  | top hs hc hout =>
    exact ⟨1, by simp [SymbolTable.findScopeGo, hs, hc, hout, h0]⟩

theorem findScopeGo_mono (t : SymbolTable) (pos : Position) :
    ∀ (fuel fuel' sid : Nat) (r : Nat), fuel ≤ fuel' →
      t.findScopeGo pos fuel sid = some r → t.findScopeGo pos fuel' sid = some r := by
  intro fuel
  induction fuel with
  | zero =>
    intro fuel' sid r _ h
    simp [SymbolTable.findScopeGo] at h
  | succ n ih =>
    intro fuel' sid r hle h
    obtain ⟨m, rfl⟩ : ∃ m, fuel' = m + 1 := ⟨fuel' - 1, by omega⟩
    cases hs : t.get_scope sid with
    | none =>
      simp [SymbolTable.findScopeGo, hs] at h ⊢
      exact h
    | some s =>
      cases hc : firstContainingChild t pos s.children with
      | some c =>
        simp only [SymbolTable.findScopeGo, hs, hc] at h ⊢
        exact ih m c r (by omega) h
      | none =>
        simp only [SymbolTable.findScopeGo, hs, hc] at h ⊢
        exact h

/-- What claim C4 asserts about `scope_at_position(pos)`: it returns `r`,
and `r` is the unique value it can return. -/
def ScopeAtPositionSpec (t : SymbolTable) (pos : Position) (r : Nat) : Prop :=
  ScopeAtPosReturns t pos r ∧ ∀ r', ScopeAtPosReturns t pos r' → r' = r

/-- Claim C4: `scope_at_position(pos)` returns the scope id reached by
descending from scope 0 into the first child (in creation order) containing
`pos`, falling back to the current scope when it contains `pos` and to the
global scope 0 otherwise. -/
theorem c4_scope_at_position_descends (t : SymbolTable) (pos : Position) (r : Nat)
    (h0 : t.root_scope_id = 0) (hd : DescendsFrom t pos 0 r) :
    ScopeAtPositionSpec t pos r := by
  have hex : ScopeAtPosReturns t pos r := by
    obtain ⟨fuel, hf⟩ := findScopeGo_of_descends h0 hd
    exact ⟨fuel, by rw [h0]; exact hf⟩
  refine ⟨hex, fun r' hr' => ?_⟩
  obtain ⟨f, hf⟩ := hex
  obtain ⟨f', hf'⟩ := hr'
  rcases Nat.le_total f f' with hle | hle
  · have h2 := findScopeGo_mono t pos f f' _ _ hle hf
    rw [h2] at hf'
    exact (Option.some_injective _ hf').symm
  · have h2 := findScopeGo_mono t pos f' f _ _ hle hf'
    rw [h2] at hf
    exact Option.some_injective _ hf

/-- Witness table for C4: scope 1 (lines 0-20) is a child of scope 0 and
scope 2 (lines 5-15) is a child of scope 1. -/
def posWitnessTable : SymbolTable :=
  let t1 := (SymbolTable.new.create_scope ScopeKind.Function 0
    { start := ⟨0, 0⟩, endPos := ⟨20, 0⟩ }).2
  (t1.create_scope ScopeKind.Block 1 { start := ⟨5, 0⟩, endPos := ⟨15, 0⟩ }).2

/-- Witness for C4 at a concrete input: position (10,0) descends 0 → 1 → 2. -/
theorem c4_scope_at_position_descends_witness :
    DescendsFrom posWitnessTable ⟨10, 0⟩ 0 2
      ∧ ScopeAtPositionSpec posWitnessTable ⟨10, 0⟩ 2 :=
  have hd : DescendsFrom posWitnessTable ⟨10, 0⟩ 0 2 :=
    DescendsFrom.step rfl rfl
      (DescendsFrom.step rfl rfl (DescendsFrom.here rfl rfl rfl))
  ⟨hd, c4_scope_at_position_descends posWitnessTable ⟨10, 0⟩ 2 rfl hd⟩

/-! ### Parent chains and claims C5/C6 -/

/-- Parent link of a scope id (none if the scope is missing or parentless). -/
def parentOf (t : SymbolTable) (sid : Nat) : Option Nat :=
  (t.get_scope sid).bind (fun s => s.parent)

/-- Iterate `parentOf` a given number of times. -/
def ancestorIter (t : SymbolTable) : Nat → Nat → Option Nat
  | 0, sid => some sid
  | n + 1, sid => (parentOf t sid).bind (ancestorIter t n)

/-- The parent chain from `sid` terminates at scope 0. -/
def ChainTerminatesAt0 (t : SymbolTable) (sid : Nat) : Prop :=
  ∃ n, ancestorIter t n sid = some 0

/-- A reachable table whose scope 1 was created with the unknown parent 99:
its parent chain leaves the scope map and never reaches scope 0. -/
def orphanTable : SymbolTable :=
  (SymbolTable.new.create_scope ScopeKind.Function 99 rW).2

/-- Counterexample to C5 as stated: `orphanTable` is reachable by public
mutator calls, scope 1 exists, and its parent chain does not terminate at
scope 0 (it points at the nonexistent scope 99). -/
theorem c5_counterexample_orphan_chain :
    Reachable orphanTable ∧ (orphanTable.get_scope 1).isSome = true
      ∧ ¬ ChainTerminatesAt0 orphanTable 1 := by
  refine ⟨Reachable.create_scope ScopeKind.Function 99 rW Reachable.new, rfl, ?_⟩
  rintro ⟨n, hn⟩
  match n, hn with
  | 0, hn => exact absurd hn (by decide)
  | 1, hn => exact absurd hn (by decide)
  | m + 2, hn =>
    have key : ancestorIter orphanTable (m + 2) 1 = none := by
      show (parentOf orphanTable 1).bind (ancestorIter orphanTable (m + 1)) = none
      rw [show parentOf orphanTable 1 = some 99 from rfl]
      show (parentOf orphanTable 99).bind (ancestorIter orphanTable m) = none
      rw [show parentOf orphanTable 99 = none from rfl]
      rfl
    rw [key] at hn
    cases hn

/-- Reachability with the amendment of C5/C6: every `create_scope` call
passes the id of an already-existing scope. -/
inductive ReachableV : SymbolTable → Prop where
  | new : ReachableV SymbolTable.new
  | create_symbol {t : SymbolTable} (name : String) (flags : Nat)
      (dr nr : Range) (scope_id : Nat) :
      ReachableV t → ReachableV (t.create_symbol name flags dr nr scope_id).2
  | create_scope {t : SymbolTable} (kind : ScopeKind) (parent_id : Nat) (range : Range) :
      ReachableV t → (t.get_scope parent_id).isSome = true →
      ReachableV (t.create_scope kind parent_id range).2
  | add_reference {t : SymbolTable} (symbol_id : Nat) (range : Range) :
      ReachableV t → ReachableV (t.add_reference symbol_id range)

theorem reachableV_reachable {t : SymbolTable} (h : ReachableV t) : Reachable t := by
  induction h with
  | new => exact Reachable.new
  | create_symbol name flags dr nr scope_id _ ih =>
    exact Reachable.create_symbol name flags dr nr scope_id ih
  | create_scope kind parent_id range _ _ ih =>
    exact Reachable.create_scope kind parent_id range ih
  | add_reference symbol_id range _ ih =>
    exact Reachable.add_reference symbol_id range ih

@[simp]
theorem add_symbol_parent (s : Scope) (n : String) (i : Nat) :
    (s.add_symbol n i).parent = s.parent := rfl

@[simp]
theorem add_symbol_children (s : Scope) (n : String) (i : Nat) :
    (s.add_symbol n i).children = s.children := rfl

@[simp]
theorem add_type_symbol_parent (s : Scope) (n : String) (i : Nat) :
    (s.add_type_symbol n i).parent = s.parent := rfl

@[simp]
theorem add_type_symbol_children (s : Scope) (n : String) (i : Nat) :
    (s.add_type_symbol n i).children = s.children := rfl

/-- Routing a symbol into either namespace leaves the parent link alone. -/
theorem routeSymbol_parent (c : Prop) [Decidable c] (w : Scope) (n : String) (i : Nat) :
    (if c then w.add_type_symbol n i else w.add_symbol n i).parent = w.parent := by
  split <;> rfl

/-- Routing a symbol into either namespace leaves the children alone. -/
theorem routeSymbol_children (c : Prop) [Decidable c] (w : Scope) (n : String) (i : Nat) :
    (if c then w.add_type_symbol n i else w.add_symbol n i).children = w.children := by
  split <;> rfl

/-- Invariants of the scope tree that hold in every state reachable by
arbitrary public mutator calls. -/
def WeakScopeInv (t : SymbolTable) : Prop :=
  (∃ s0, t.get_scope 0 = some s0 ∧ s0.parent = none)
  ∧ (∀ id s, t.get_scope id = some s → id < t.next_scope_id)
  ∧ (∀ id s, t.get_scope id = some s → id ≠ 0 → ∃ p, s.parent = some p)
  ∧ (∀ id s c, t.get_scope id = some s → c ∈ s.children →
      ∃ cs, t.get_scope c = some cs ∧ cs.parent = some id)

/-- Pointwise relation: two optional scopes agree on existence, parent and
children (namespace contents may differ). -/
def SameShape : Option Scope → Option Scope → Prop
  | none, none => True
  | some s, some s' => s'.parent = s.parent ∧ s'.children = s.children
  | _, _ => False

theorem sameShape_refl (o : Option Scope) : SameShape o o := by
  cases o with
  | none => trivial
  | some s => exact ⟨rfl, rfl⟩

theorem weakScopeInv_transfer {t t' : SymbolTable}
    (hnext : t'.next_scope_id = t.next_scope_id)
    (hshape : ∀ x, SameShape (t.get_scope x) (t'.get_scope x))
    (h : WeakScopeInv t) : WeakScopeInv t' := by
  obtain ⟨⟨s0, hs0, hs0p⟩, hlt, hpar, hchild⟩ := h
  refine ⟨?_, ?_, ?_, ?_⟩
  · have := hshape 0
    rw [hs0] at this
    cases hg : t'.get_scope 0 with
    | none => rw [hg] at this; cases this
    | some s0' =>
      rw [hg] at this
      exact ⟨s0', rfl, this.1.trans hs0p⟩
  · intro id s' hgs
    have := hshape id
    rw [hgs] at this
    cases hg : t.get_scope id with
    | none => rw [hg] at this; cases this
    | some s =>
      rw [hg] at this
      rw [hnext]
      exact hlt id s hg
  · intro id s' hgs h0
    have := hshape id
    rw [hgs] at this
    cases hg : t.get_scope id with
    | none => rw [hg] at this; cases this
    | some s =>
      rw [hg] at this
      obtain ⟨p, hp⟩ := hpar id s hg h0
      exact ⟨p, this.1.trans hp⟩
  · intro id s' c hgs hc
    have := hshape id
    rw [hgs] at this
    cases hg : t.get_scope id with
    | none => rw [hg] at this; cases this
    | some s =>
      rw [hg] at this
      rw [this.2] at hc
      obtain ⟨cs, hcs, hcp⟩ := hchild id s c hg hc
      have h2 := hshape c
      rw [hcs] at h2
      cases hg2 : t'.get_scope c with
      | none => rw [hg2] at h2; cases h2
      | some cs' =>
        rw [hg2] at h2
        exact ⟨cs', rfl, h2.1.trans hcp⟩

/-- Pointwise description of `get_scope` after `create_symbol`. -/
theorem get_scope_create_symbol (t : SymbolTable) (name : String) (flags : Nat)
    (dr nr : Range) (scope_id : Nat) (x : Nat) :
    (t.create_symbol name flags dr nr scope_id).2.get_scope x
      = if x = scope_id then
          (t.get_scope scope_id).map (fun s =>
            if flagsIntersects flags typeRoutingFlags then
              s.add_type_symbol name t.next_symbol_id
            else
              s.add_symbol name t.next_symbol_id)
        else t.get_scope x := by
  simp only [SymbolTable.get_scope, create_symbol_scopes]
  rw [mapGet_mapModify]

/-- Pointwise description of `get_scope` after `create_scope` (covering the
self-parent corner case `parent_id = next_scope_id`). -/
theorem get_scope_create_scope (t : SymbolTable) (kind : ScopeKind) (parent_id : Nat)
    (range : Range) (x : Nat) :
    (t.create_scope kind parent_id range).2.get_scope x
      = if x = parent_id then
          ((if parent_id = t.next_scope_id
              then some (Scope.new t.next_scope_id kind (some parent_id) range)
              else t.get_scope parent_id).map
            (fun p => { p with children := p.children ++ [t.next_scope_id] }))
        else if x = t.next_scope_id
          then some (Scope.new t.next_scope_id kind (some parent_id) range)
          else t.get_scope x := by
  simp only [SymbolTable.get_scope, create_scope_scopes]
  rw [mapGet_mapModify, mapGet_mapInsert, mapGet_mapInsert]

theorem reachable_weakScopeInv {t : SymbolTable} (h : Reachable t) : WeakScopeInv t := by
  induction h with
  | new =>
    refine ⟨⟨_, rfl, rfl⟩, ?_, ?_, ?_⟩
    · intro id s hgs
      simp only [SymbolTable.new, SymbolTable.get_scope, mapGet] at hgs
      show id < 1
      split at hgs
      · omega
      · cases hgs
    · intro id s hgs h0
      simp only [SymbolTable.new, SymbolTable.get_scope, mapGet] at hgs
      split at hgs
      · omega
      · cases hgs
    · intro id s c hgs hc
      simp only [SymbolTable.new, SymbolTable.get_scope, mapGet] at hgs
      split at hgs
      · cases hgs with
        | refl => cases hc
      · cases hgs
  | create_symbol name flags dr nr scope_id _ ih =>
    rename_i t0 hprev
    refine weakScopeInv_transfer ?_ (fun x => ?_) ih
    · rfl
    rw [get_scope_create_symbol]
    by_cases hx : x = scope_id
    · rw [if_pos hx, hx]
      cases hg : t0.get_scope scope_id with
      | none => simp [SameShape]
      | some s =>
        simp only [Option.map_some']
        exact ⟨routeSymbol_parent _ s name t0.next_symbol_id,
               routeSymbol_children _ s name t0.next_symbol_id⟩
    · rw [if_neg hx]
      exact sameShape_refl _
  | add_reference symbol_id range _ ih =>
    refine weakScopeInv_transfer ?_ (fun x => sameShape_refl _) ih
    rfl
  | create_scope kind parent_id range _ ih =>
    rename_i t0 hprev
    obtain ⟨⟨s0, hs0, hs0p⟩, hlt, hpar, hchild⟩ := ih
    have h0next : 0 < t0.next_scope_id := hlt 0 s0 hs0
    have hget := get_scope_create_scope t0 kind parent_id range
    refine ⟨?_, ?_, ?_, ?_⟩
    · by_cases hp0 : (0 : Nat) = parent_id
      · have hpn : ¬ parent_id = t0.next_scope_id := by omega
        refine ⟨{ s0 with children := s0.children ++ [t0.next_scope_id] }, ?_, hs0p⟩
        rw [hget 0, if_pos hp0, if_neg hpn, ← hp0, hs0]
        rfl
      · have h0n : ¬ (0 : Nat) = t0.next_scope_id := by omega
        exact ⟨s0, by rw [hget 0, if_neg hp0, if_neg h0n, hs0], hs0p⟩
    · intro id s' hgs
      rw [create_scope_next_scope_id]
      rw [hget id] at hgs
      by_cases hid : id = parent_id
      · rw [if_pos hid] at hgs
        by_cases hpn : parent_id = t0.next_scope_id
        · omega
        · rw [if_neg hpn] at hgs
          cases hw : t0.get_scope parent_id with
          | none => rw [hw] at hgs; cases hgs
          | some w =>
            rw [hw] at hgs
            have := hlt parent_id w hw
            omega
      · rw [if_neg hid] at hgs
        by_cases hin : id = t0.next_scope_id
        · omega
        · rw [if_neg hin] at hgs
          have := hlt id s' hgs
          omega
    · intro id s' hgs h0
      rw [hget id] at hgs
      by_cases hid : id = parent_id
      · rw [if_pos hid] at hgs
        by_cases hpn : parent_id = t0.next_scope_id
        · rw [if_pos hpn] at hgs
          simp only [Option.map_some'] at hgs
          injection hgs with he
          rw [← he]
          exact ⟨parent_id, rfl⟩
        · rw [if_neg hpn] at hgs
          cases hw : t0.get_scope parent_id with
          | none => rw [hw] at hgs; cases hgs
          | some w =>
            rw [hw] at hgs
            simp only [Option.map_some'] at hgs
            injection hgs with he
            obtain ⟨p, hp⟩ := hpar parent_id w hw (by omega)
            rw [← he]
            exact ⟨p, hp⟩
      · rw [if_neg hid] at hgs
        by_cases hin : id = t0.next_scope_id
        · rw [if_pos hin] at hgs
          injection hgs with he
          rw [← he]
          exact ⟨parent_id, rfl⟩
        · rw [if_neg hin] at hgs
          exact hpar id s' hgs h0
    · intro id s' c hgs hc
      have hgs0 := hgs
      rw [hget id] at hgs
      by_cases hid : id = parent_id
      · rw [if_pos hid] at hgs
        by_cases hpn : parent_id = t0.next_scope_id
        · rw [if_pos hpn] at hgs
          simp only [Option.map_some'] at hgs
          injection hgs with he
          have hc2 : c ∈ ([] : List Nat) ++ [t0.next_scope_id] := by
            rw [← he] at hc
            exact hc
          have hcn : c = t0.next_scope_id := by simpa using hc2
          refine ⟨s', ?_, ?_⟩
          · rw [show c = id from by omega]
            exact hgs0
          · rw [← he, hid]
            rfl
        · rw [if_neg hpn] at hgs
          cases hw : t0.get_scope parent_id with
          | none => rw [hw] at hgs; cases hgs
          | some sp =>
            rw [hw] at hgs
            simp only [Option.map_some'] at hgs
            injection hgs with he
            have hc2 : c ∈ sp.children ++ [t0.next_scope_id] := by
              rw [← he] at hc
              exact hc
            rcases List.mem_append.mp hc2 with hcold | hcnew
            · obtain ⟨cs, hcs, hcp⟩ := hchild parent_id sp c hw hcold
              by_cases hcpid : c = parent_id
              · have hcs2 : t0.get_scope parent_id = some cs := by
                  rw [← hcpid]
                  exact hcs
                have hcssp : cs = sp := by
                  rw [hw] at hcs2
                  injection hcs2 with he2
                  exact he2.symm
                refine ⟨{ sp with children := sp.children ++ [t0.next_scope_id] }, ?_, ?_⟩
                · rw [hget c, if_pos hcpid, if_neg hpn, hw]
                  rfl
                · show sp.parent = some id
                  rw [hid, ← hcssp]
                  exact hcp
              · have hcn2 : ¬ c = t0.next_scope_id := by
                  have := hlt c cs hcs
                  omega
                refine ⟨cs, ?_, by rw [hid]; exact hcp⟩
                rw [hget c, if_neg hcpid, if_neg hcn2]
                exact hcs
            · have hcn : c = t0.next_scope_id := by simpa using hcnew
              refine ⟨Scope.new t0.next_scope_id kind (some parent_id) range, ?_, ?_⟩
              · rw [hget c, if_neg (show ¬ c = parent_id by omega), if_pos hcn]
              · show some parent_id = some id
                rw [hid]
      · rw [if_neg hid] at hgs
        by_cases hin : id = t0.next_scope_id
        · rw [if_pos hin] at hgs
          injection hgs with he
          rw [← he] at hc
          simp [Scope.new] at hc
        · rw [if_neg hin] at hgs
          obtain ⟨cs, hcs, hcp⟩ := hchild id s' c hgs hc
          by_cases hcpid : c = parent_id
          · have hpn2 : ¬ parent_id = t0.next_scope_id := by
              have := hlt c cs hcs
              omega
            have hcssp : t0.get_scope parent_id = some cs := by
              rw [← hcpid]
              exact hcs
            refine ⟨{ cs with children := cs.children ++ [t0.next_scope_id] }, ?_, hcp⟩
            rw [hget c, if_pos hcpid, if_neg hpn2, hcssp]
            rfl
          · have hcn2 : ¬ c = t0.next_scope_id := by
              have := hlt c cs hcs
              omega
            refine ⟨cs, ?_, hcp⟩
            rw [hget c, if_neg hcpid, if_neg hcn2]
            exact hcs

/-- Existence of a scope id is preserved by `create_symbol`. -/
theorem exists_scope_create_symbol (t : SymbolTable) (name : String) (flags : Nat)
    (dr nr : Range) (scope_id : Nat) {q : Nat} {qs : Scope}
    (hq : t.get_scope q = some qs) :
    ∃ qs', (t.create_symbol name flags dr nr scope_id).2.get_scope q = some qs' := by
  rw [get_scope_create_symbol]
  by_cases hqs : q = scope_id
  · rw [if_pos hqs]
    rw [show t.get_scope scope_id = some qs from hqs ▸ hq]
    exact ⟨_, rfl⟩
  · rw [if_neg hqs]
    exact ⟨qs, hq⟩

/-- In states built with only valid parent ids, every nonzero scope's parent
exists and has a strictly smaller id. -/
theorem reachableV_parent_lt {t : SymbolTable} (h : ReachableV t) :
    ∀ id s, t.get_scope id = some s → id ≠ 0 →
      ∃ p ps, s.parent = some p ∧ p < id ∧ t.get_scope p = some ps := by
  induction h with
  | new =>
    intro id s hgs h0
    simp only [SymbolTable.new, SymbolTable.get_scope, mapGet] at hgs
    split at hgs
    · omega
    · cases hgs
  | create_symbol name flags dr nr scope_id _ ih =>
    rename_i t0 hprev
    intro id s' hgs h0
    rw [get_scope_create_symbol] at hgs
    by_cases hid : id = scope_id
    · rw [if_pos hid] at hgs
      cases hw : t0.get_scope scope_id with
      | none => rw [hw] at hgs; cases hgs
      | some w =>
        rw [hw] at hgs
        simp only [Option.map_some'] at hgs
        injection hgs with he
        obtain ⟨p, ps, hp, hplt, hpex⟩ := ih id w (hid ▸ hw) h0
        obtain ⟨ps', hps'⟩ := exists_scope_create_symbol t0 name flags dr nr scope_id hpex
        refine ⟨p, ps', ?_, hplt, hps'⟩
        rw [← he]
        rw [routeSymbol_parent]
        exact hp
    · rw [if_neg hid] at hgs
      obtain ⟨p, ps, hp, hplt, hpex⟩ := ih id s' hgs h0
      obtain ⟨ps', hps'⟩ := exists_scope_create_symbol t0 name flags dr nr scope_id hpex
      exact ⟨p, ps', hp, hplt, hps'⟩
  | add_reference symbol_id range _ ih =>
    exact ih
  | create_scope kind parent_id range _ hps ih =>
    rename_i t0 hprev
    obtain ⟨sp, hg⟩ : ∃ sp, t0.get_scope parent_id = some sp := by
      cases hg : t0.get_scope parent_id with
      | none => rw [hg] at hps; cases hps
      | some sp => exact ⟨sp, rfl⟩
    obtain ⟨_, hlt, _, _⟩ := reachable_weakScopeInv (reachableV_reachable hprev)
    have hplt0 : parent_id < t0.next_scope_id := hlt parent_id sp hg
    have hpn : ¬ parent_id = t0.next_scope_id := by omega
    have hget := get_scope_create_scope t0 kind parent_id range
    have hex2 : ∀ q qs, t0.get_scope q = some qs →
        ∃ qs', (t0.create_scope kind parent_id range).2.get_scope q = some qs' := by
      intro q qs hq
      rw [hget q]
      by_cases hqp : q = parent_id
      · rw [if_pos hqp, if_neg hpn]
        rw [show t0.get_scope parent_id = some qs from hqp ▸ hq]
        exact ⟨_, rfl⟩
      · rw [if_neg hqp]
        by_cases hqn : q = t0.next_scope_id
        · rw [if_pos hqn]
          exact ⟨_, rfl⟩
        · rw [if_neg hqn]
          exact ⟨qs, hq⟩
    intro id s' hgs h0
    rw [hget id] at hgs
    by_cases hid : id = parent_id
    · rw [if_pos hid, if_neg hpn, hg] at hgs
      simp only [Option.map_some'] at hgs
      injection hgs with he
      obtain ⟨p, ps, hp, hplt, hpex⟩ := ih parent_id sp hg (by omega)
      obtain ⟨ps', hps'⟩ := hex2 p ps hpex
      refine ⟨p, ps', ?_, by omega, hps'⟩
      rw [← he]
      exact hp
    · rw [if_neg hid] at hgs
      by_cases hin : id = t0.next_scope_id
      · rw [if_pos hin] at hgs
        injection hgs with he
        obtain ⟨ps', hps'⟩ := hex2 parent_id sp hg
        refine ⟨parent_id, ps', ?_, by omega, hps'⟩
        rw [← he]
        rfl
      · rw [if_neg hin] at hgs
        obtain ⟨p, ps, hp, hplt, hpex⟩ := ih id s' hgs h0
        obtain ⟨ps', hps'⟩ := hex2 p ps hpex
        exact ⟨p, ps', hp, hplt, hps'⟩

/-- Every parent link points strictly downwards in a `ReachableV` state. -/
theorem reachableV_parent_lt' {t : SymbolTable} (hv : ReachableV t) {id : Nat} {s : Scope}
    (hs : t.get_scope id = some s) {p : Nat} (hp : s.parent = some p) : p < id := by
  by_cases h0 : id = 0
  · obtain ⟨⟨s0, hs0, hs0p⟩, _, _, _⟩ := reachable_weakScopeInv (reachableV_reachable hv)
    subst h0
    rw [hs0] at hs
    injection hs with he
    rw [← he] at hp
    rw [hs0p] at hp
    cases hp
  · obtain ⟨q, ps, hq, hqlt, _⟩ := reachableV_parent_lt hv id s hs h0
    rw [hp] at hq
    injection hq with he
    omega

/-- The `lookup` walk from any scope id in a `ReachableV` state visits a
finite chain. -/
theorem reachableV_chain_exists {t : SymbolTable} (hv : ReachableV t) (sid : Nat) :
    ∃ ch, Chain t (some sid) ch := by
  induction sid using Nat.strong_induction_on with
  | _ sid ih =>
    cases hs : t.get_scope sid with
    | none => exact ⟨[], Chain.missing hs⟩
    | some s =>
      cases hp : s.parent with
      | none => exact ⟨[sid], Chain.cons hs (by rw [hp]; exact Chain.nil)⟩
      | some p =>
        have hplt : p < sid := reachableV_parent_lt' hv hs hp
        obtain ⟨ch, hch⟩ := ih p hplt
        exact ⟨sid :: ch, Chain.cons hs (by rw [hp]; exact hch)⟩

theorem chain_elements_lt {t : SymbolTable} (hv : ReachableV t) :
    ∀ {o : Option Nat} {ch : List Nat}, Chain t o ch →
      ∀ ub, (∀ c, o = some c → c < ub) → ∀ x, x ∈ ch → x < ub := by
  intro o ch hch
  induction hch with
  | nil => intro ub _ x hx; cases hx
  | missing _ => intro ub _ x hx; cases hx
  | cons hs hc ih =>
    rename_i id s ch2
    intro ub hub x hx
    rcases List.mem_cons.mp hx with rfl | hx'
    · exact hub x rfl
    · have hidub : id < ub := hub id rfl
      have hplt : ∀ c, s.parent = some c → c < id := fun c hpc =>
        reachableV_parent_lt' hv hs hpc
      exact Nat.lt_trans (ih id hplt x hx') hidub

/-- The visited chain is strictly decreasing, so each scope is visited at
most once. -/
theorem chain_pairwise {t : SymbolTable} (hv : ReachableV t) :
    ∀ {o : Option Nat} {ch : List Nat}, Chain t o ch →
      List.Pairwise (fun a b => b < a) ch := by
  intro o ch hch
  induction hch with
  | nil => exact List.Pairwise.nil
  | missing _ => exact List.Pairwise.nil
  | cons hs hc ih =>
    rename_i id s ch2
    refine List.pairwise_cons.mpr ⟨?_, ih⟩
    intro x hx
    exact chain_elements_lt hv hc id
      (fun c hpc => reachableV_parent_lt' hv hs hpc) x hx

/-- In a `ReachableV` state every existing scope's parent chain reaches 0. -/
theorem reachableV_chains_terminate {t : SymbolTable} (hv : ReachableV t) :
    ∀ id s, t.get_scope id = some s → ChainTerminatesAt0 t id := by
  intro id
  induction id using Nat.strong_induction_on with
  | _ id ih =>
    intro s hs
    by_cases h0 : id = 0
    · exact ⟨0, by rw [h0]; rfl⟩
    · obtain ⟨p, ps, hp, hplt, hpex⟩ := reachableV_parent_lt hv id s hs h0
      obtain ⟨n, hn⟩ := ih p hplt ps hpex
      refine ⟨n + 1, ?_⟩
      show (parentOf t id).bind (ancestorIter t n) = some 0
      rw [show parentOf t id = some p from by simp [parentOf, hs, hp]]
      exact hn

/-! ### Claim C5, amended -/

/-- The scope-tree invariants of the amended claim C5: in every reachable
state, scope 0 exists and is the unique parentless scope, and every child
link is matched by the child's parent link; when additionally every
`create_scope` call named an existing parent, every scope's parent chain
terminates at scope 0. -/
def ScopeTreeSpec (t : SymbolTable) : Prop :=
  (∃ s0, t.get_scope 0 = some s0 ∧ s0.parent = none)
  ∧ (∀ id s, t.get_scope id = some s → s.parent = none → id = 0)
  ∧ (∀ id s c, t.get_scope id = some s → c ∈ s.children →
      ∃ cs, t.get_scope c = some cs ∧ cs.parent = some id)
  ∧ (ReachableV t → ∀ id s, t.get_scope id = some s → ChainTerminatesAt0 t id)

/-- Claim C5, amended: scope 0 is the unique parentless scope and children
links are coherent in every reachable state; parent chains terminate at 0
provided every `create_scope` call passed the id of an existing scope (the
counterexample shows this proviso is necessary). -/
theorem c5_amended_scope_tree_invariants (t : SymbolTable) (h : Reachable t) :
    ScopeTreeSpec t := by
  obtain ⟨hz, hlt, hpar, hchild⟩ := reachable_weakScopeInv h
  refine ⟨hz, ?_, hchild, ?_⟩
  · intro id s hs hparn
    by_contra h0
    obtain ⟨p, hp⟩ := hpar id s hs h0
    rw [hparn] at hp
    cases hp
  · intro hv
    exact reachableV_chains_terminate hv

/-- A reachable (and `ReachableV`) table: one Function scope under scope 0. -/
def vTable : SymbolTable := (SymbolTable.new.create_scope ScopeKind.Function 0 rW).2

/-- Witness for the amended C5 at a concrete input. -/
theorem c5_amended_scope_tree_invariants_witness :
    Reachable vTable ∧ ScopeTreeSpec vTable :=
  have hr : Reachable vTable := Reachable.create_scope ScopeKind.Function 0 rW Reachable.new
  ⟨hr, c5_amended_scope_tree_invariants vTable hr⟩

/-! ### Claim C6 -/

/-- The scope produced by `create_scope(Block, 1, rW)` on a fresh table: the
source inserts the scope before linking, so passing `parent_id = 1` when the
next scope id is 1 makes the scope its own parent and its own child. -/
def cycleScope : Scope :=
  { id := 1, kind := ScopeKind.Block, parent := some 1, children := [1], range := rW,
    symbols := [], type_symbols := [] }

/-- A reachable table containing a self-parented scope. -/
def cycleTable : SymbolTable := (SymbolTable.new.create_scope ScopeKind.Block 1 rW).2

theorem cycleTable_lookup_diverges :
    ∀ fuel, cycleTable.lookupGo "x" fuel (some 1) = none := by
  intro fuel
  induction fuel with
  | zero => rfl
  | succ n ih =>
    have hs : cycleTable.get_scope 1 = some cycleScope := rfl
    have hl : cycleScope.lookup_local "x" = none := rfl
    simp only [SymbolTable.lookupGo, hs, hl]
    exact ih

/-- Counterexample to C6 as stated: `cycleTable` is reachable by public
mutator calls but `lookup("x", 1)` never terminates (scope 1 is its own
parent). -/
theorem c6_counterexample_lookup_diverges :
    Reachable cycleTable ∧ (cycleTable.get_scope 1).isSome = true
      ∧ ¬ LookupTerminates cycleTable "x" 1 := by
  refine ⟨Reachable.create_scope ScopeKind.Block 1 rW Reachable.new, rfl, ?_⟩
  rintro ⟨r, fuel, hf⟩
  rw [cycleTable_lookup_diverges fuel] at hf
  cases hf

/-- The amended claim C6 about one `lookup`/`lookup_type` call: the walk
visits a duplicate-free chain and both lookups finish within
`chain length + 1` loop iterations. -/
def BoundedLookupSpec (t : SymbolTable) (name : String) (sid : Nat) : Prop :=
  ∃ ch : List Nat, Chain t (some sid) ch ∧ ch.Nodup
    ∧ t.lookupGo name (ch.length + 1) (some sid) = some (firstHit t name ch)
    ∧ t.lookupTypeGo name (ch.length + 1) (some sid) = some (firstTypeHit t name ch)

/-- Claim C6, amended: in every state reachable by sequences in which each
`create_scope` call passed the id of an existing scope, `lookup` and
`lookup_type` terminate, visiting each scope of the parent chain at most
once (cost bounded by the chain's depth). -/
theorem c6_amended_lookup_terminates (t : SymbolTable) (hv : ReachableV t)
    (name : String) (sid : Nat) : BoundedLookupSpec t name sid := by
  obtain ⟨ch, hch⟩ := reachableV_chain_exists hv sid
  refine ⟨ch, hch, ?_, lookupGo_of_chain t name hch, lookupTypeGo_of_chain t name hch⟩
  exact (chain_pairwise hv hch).imp fun hab => (Nat.ne_of_lt hab).symm

/-- Witness for the amended C6 at a concrete input. -/
theorem c6_amended_lookup_terminates_witness :
    ReachableV vTable ∧ BoundedLookupSpec vTable "x" 1 :=
  have hv : ReachableV vTable :=
    ReachableV.create_scope ScopeKind.Function 0 rW ReachableV.new rfl
  ⟨hv, c6_amended_lookup_terminates vTable hv "x" 1⟩

/-! ### `binder.rs`: the syntax-tree model

A `tree_sitter::Node` is modelled by its kind string, the field label under
which it sits in its parent (tree-sitter stores field labels on the edge to
the parent; two distinct children always carry distinct labels, and node
equality in the source is identity, so a child reached through one field is
never the child reached through a different field), its (line, column)
range, its byte span (modelled as character indices into the source), and
its ordered children. -/

inductive TSNode : Type where
  | mk : String → Option String → Range → Nat → Nat → List TSNode → TSNode

/-- `Node::kind`. -/
def TSNode.kindOf : TSNode → String
  | .mk k _ _ _ _ _ => k

/-- The field label this node carries in its parent, if any. -/
def TSNode.fieldOf : TSNode → Option String
  | .mk _ f _ _ _ _ => f

/-- `Binder::node_range` (start/end positions are stored on the node). -/
def TSNode.rangeOf : TSNode → Range
  | .mk _ _ r _ _ _ => r

/-- `Node::start_byte`. -/
def TSNode.startOf : TSNode → Nat
  | .mk _ _ _ s _ _ => s

/-- `Node::end_byte`. -/
def TSNode.stopOf : TSNode → Nat
  | .mk _ _ _ _ e _ => e

/-- `Node::children` in order. -/
def TSNode.childrenOf : TSNode → List TSNode
  | .mk _ _ _ _ _ cs => cs

/-- `Node::child_by_field_name`: the first child carrying the field label. -/
def childByField (n : TSNode) (f : String) : Option TSNode :=
  n.childrenOf.find? (fun c => c.fieldOf == some f)

/-- `Binder::has_child_kind`. -/
def hasChildKind (n : TSNode) (k : String) : Bool :=
  n.childrenOf.any (fun c => c.kindOf == k)

/-- `Binder::node_text`: slice the source by the node's span (`utf8_text`
over byte offsets, modelled at character granularity). -/
def nodeText (source : String) (n : TSNode) : String :=
  ⟨(source.toList.drop n.startOf).take (n.stopOf - n.startOf)⟩

theorem TSNode.sizeOf_childrenOf (n : TSNode) : sizeOf n.childrenOf < sizeOf n := by
  cases n with
  | mk k f r s e cs =>
    simp only [TSNode.childrenOf, TSNode.mk.sizeOf_spec]
    omega

theorem sizeOf_mem_children {c n : TSNode} (h : c ∈ n.childrenOf) : sizeOf c < sizeOf n :=
  Nat.lt_trans (List.sizeOf_lt_of_mem h) n.sizeOf_childrenOf

theorem sizeOf_childByField {n x : TSNode} {f : String} (h : childByField n f = some x) :
    sizeOf x < sizeOf n :=
  sizeOf_mem_children (List.mem_of_find?_eq_some h)

/-! ### `binder.rs`: the binder -/

/-- The `Binder` struct: source text, the table being built, and the current
scope id. -/
structure Binder where
  source : String
  symbol_table : SymbolTable
  current_scope : Nat

/-- `Binder::new`. -/
def Binder.new (source : String) : Binder :=
  { source := source, symbol_table := SymbolTable.new, current_scope := 0 }

/-- `self.symbol_table.create_symbol(..., self.current_scope)` with the
returned id discarded, as every call site in the binder does. -/
def Binder.createSym (b : Binder) (name : String) (flags : Nat) (dr nr : Range) : Binder :=
  { b with symbol_table :=
      (b.symbol_table.create_symbol name flags dr nr b.current_scope).2 }

/-- The context the binder consults about the node currently visited: the
parent's kind and whether this node is the parent's `name` field child
(`parent.child_by_field_name("name") == Some(node)` in the source; node
equality there is identity, which the traversal tracks exactly). -/
structure Ctx where
  parentKind : Option String
  isNameField : Bool

/-- The binder's call to `SymbolTable::lookup`.  Fuel `next_scope_id + 1` is
sufficient for every table the binder itself builds: the binder only creates
scopes whose parent is the existing current scope, so parent chains strictly
decrease and are shorter than `next_scope_id`; the `none` fallback is never
taken in those states. -/
def SymbolTable.binderLookup (t : SymbolTable) (name : String) (scope_id : Nat) :
    Option Nat :=
  (t.lookupGo name (t.next_scope_id + 1) (some scope_id)).join

/-- `Binder::bind_identifier_reference`. -/
def bindIdentifierReference (b : Binder) (ctx : Ctx) (n : TSNode) : Binder :=
  let skip : Bool :=
    match ctx.parentKind with
    | some pk =>
      if pk = "variable_declarator" then ctx.isNameField
      else if pk = "function_declaration" ∨ pk = "class_declaration"
          ∨ pk = "interface_declaration" ∨ pk = "type_alias_declaration"
          ∨ pk = "enum_declaration" ∨ pk = "method_definition" then ctx.isNameField
      else if pk = "import_specifier" ∨ pk = "shorthand_property_identifier_pattern"
          ∨ pk = "required_parameter" ∨ pk = "optional_parameter"
          ∨ pk = "rest_parameter" then true
      else false
    | none => false
  if skip then b
  else
    let name := nodeText b.source n
    match b.symbol_table.binderLookup name b.current_scope with
    | some symbol_id =>
      { b with symbol_table := b.symbol_table.add_reference symbol_id n.rangeOf }
    | none => b

/-- The `rest_pattern` arm of `Binder::bind_pattern`: every identifier child
becomes a symbol. -/
def bindRestIdentifiers (b : Binder) (flags : Nat) (cs : List TSNode) : Binder :=
  cs.foldl (fun acc rc =>
    if rc.kindOf = "identifier" then
      acc.createSym (nodeText acc.source rc) flags rc.rangeOf rc.rangeOf
    else acc) b

/-- `Binder::bind_import_clause`. -/
def bindImportClause (b : Binder) (n : TSNode) : Binder :=
  n.childrenOf.foldl (fun acc child =>
    if child.kindOf = "identifier" then
      acc.createSym (nodeText acc.source child)
        (SymbolFlags.VARIABLE ||| SymbolFlags.IMPORT) child.rangeOf child.rangeOf
    else if child.kindOf = "named_imports" then
      child.childrenOf.foldl (fun acc2 spec =>
        if spec.kindOf = "import_specifier" then
          match (childByField spec "alias").orElse (fun _ => childByField spec "name") with
          | some name_node =>
            acc2.createSym (nodeText acc2.source name_node)
              (SymbolFlags.VARIABLE ||| SymbolFlags.IMPORT) spec.rangeOf name_node.rangeOf
          | none => acc2
        else acc2) acc
    else if child.kindOf = "namespace_import" then
      match childByField child "name" with
      | some name_node =>
        acc.createSym (nodeText acc.source name_node)
          (SymbolFlags.VARIABLE ||| SymbolFlags.IMPORT) child.rangeOf name_node.rangeOf
      | none => acc
    else acc) b

/-- `Binder::bind_import_statement`. -/
def bindImportStatement (b : Binder) (n : TSNode) : Binder :=
  n.childrenOf.foldl (fun acc child =>
    if child.kindOf = "import_clause" then bindImportClause acc child
    else if child.kindOf = "namespace_import" then
      match childByField child "name" with
      | some name_node =>
        acc.createSym (nodeText acc.source name_node)
          (SymbolFlags.VARIABLE ||| SymbolFlags.IMPORT) child.rangeOf name_node.rangeOf
      | none => acc
    else acc) b

mutual

/-- `Binder::bind_pattern`. -/
def bindPattern (b : Binder) (pattern : TSNode) (flags : Nat) : Binder :=
  if pattern.kindOf = "identifier" then
    b.createSym (nodeText b.source pattern) flags pattern.rangeOf pattern.rangeOf
  else if pattern.kindOf = "object_pattern" then
    bindObjectPatternList b flags pattern.childrenOf
  else if pattern.kindOf = "array_pattern" then
    bindArrayPatternList b flags pattern.childrenOf
  else if pattern.kindOf = "assignment_pattern" then
    match hl : childByField pattern "left" with
    | some left => bindPattern b left flags
    | none => b
  else b
termination_by sizeOf pattern
decreasing_by
  all_goals simp_wf
  all_goals
    first
    | (have hx := TSNode.sizeOf_childrenOf pattern
       omega)
    | (have hx := sizeOf_childByField hl
       omega)

/-- The `object_pattern` arm of `Binder::bind_pattern`. -/
def bindObjectPatternList (b : Binder) (flags : Nat) (l : List TSNode) : Binder :=
  match l with
  | [] => b
  | child :: rest =>
    let b' :=
      if child.kindOf = "shorthand_property_identifier_pattern" then
        b.createSym (nodeText b.source child) flags child.rangeOf child.rangeOf
      else if child.kindOf = "pair_pattern" then
        match hv : childByField child "value" with
        | some value => bindPattern b value flags
        | none => b
      else if child.kindOf = "rest_pattern" then
        bindRestIdentifiers b flags child.childrenOf
      else b
    bindObjectPatternList b' flags rest
termination_by sizeOf l
decreasing_by
  all_goals simp_wf
  all_goals
    first
    | omega
    | (have hx := sizeOf_childByField hv
       omega)

/-- The `array_pattern` arm of `Binder::bind_pattern`. -/
def bindArrayPatternList (b : Binder) (flags : Nat) (l : List TSNode) : Binder :=
  match l with
  | [] => b
  | child :: rest =>
    let b' :=
      if child.kindOf ≠ "," ∧ child.kindOf ≠ "[" ∧ child.kindOf ≠ "]" then
        bindPattern b child flags
      else b
    bindArrayPatternList b' flags rest
termination_by sizeOf l
decreasing_by
  all_goals simp_wf
  all_goals omega

end

/-- `Binder::bind_parameters` (the loop body over the parameter list). -/
def bindParametersList (b : Binder) (l : List TSNode) : Binder :=
  match l with
  | [] => b
  | child :: rest =>
    let b' :=
      if child.kindOf = "required_parameter" ∨ child.kindOf = "optional_parameter"
          ∨ child.kindOf = "rest_parameter" then
        match childByField child "pattern" with
        | some pattern => bindPattern b pattern SymbolFlags.PARAMETER
        | none =>
          match child.childrenOf.find? (fun pc => pc.kindOf == "identifier") with
          | some param_child =>
            b.createSym (nodeText b.source param_child) SymbolFlags.PARAMETER
              child.rangeOf param_child.rangeOf
          | none => b
      else if child.kindOf = "identifier" then
        b.createSym (nodeText b.source child) SymbolFlags.PARAMETER child.rangeOf
          child.rangeOf
      else b
    bindParametersList b' rest

/-- `Binder::bind_parameters`. -/
def bindParameters (b : Binder) (params : TSNode) : Binder :=
  bindParametersList b params.childrenOf

mutual

/-- `Binder::visit_node`: dispatch on the node kind; unrecognized kinds fall
through to child traversal. -/
def visitNode (b : Binder) (ctx : Ctx) (n : TSNode) : Binder :=
  if n.kindOf = "function_declaration" then bindFunctionDeclaration b ctx n
  else if n.kindOf = "class_declaration" then bindClassDeclaration b ctx n
  else if n.kindOf = "interface_declaration" then bindInterfaceDeclaration b ctx n
  else if n.kindOf = "type_alias_declaration" then bindTypeAliasDeclaration b ctx n
  else if n.kindOf = "enum_declaration" then bindEnumDeclaration b ctx n
  else if n.kindOf = "lexical_declaration" then bindLexicalDeclaration b n
  else if n.kindOf = "variable_declaration" then bindVariableDeclaration b n
  else if n.kindOf = "import_statement" then bindImportStatement b n
  else if n.kindOf = "arrow_function" then bindArrowFunction b n
  else if n.kindOf = "method_definition" then bindMethodDefinition b n
  else if n.kindOf = "statement_block" then bindBlock b ctx n
  else if n.kindOf = "if_statement" ∨ n.kindOf = "for_statement"
      ∨ n.kindOf = "for_in_statement" ∨ n.kindOf = "for_of_statement"
      ∨ n.kindOf = "while_statement" ∨ n.kindOf = "do_statement"
      ∨ n.kindOf = "switch_statement" then bindControlFlow b n
  else if n.kindOf = "catch_clause" then bindCatchClause b n
  else if n.kindOf = "identifier" then bindIdentifierReference b ctx n
  else visitChildren b n
termination_by 3 * sizeOf n + 2
decreasing_by
  all_goals simp_wf
  all_goals omega

/-- `Binder::visit_children`. -/
def visitChildren (b : Binder) (n : TSNode) : Binder :=
  visitList b n.kindOf false n.childrenOf
termination_by 3 * sizeOf n
decreasing_by
  all_goals simp_wf
  all_goals
    (have hx := TSNode.sizeOf_childrenOf n
     omega)

/-- The child loop of `Binder::visit_children`, tracking the parent kind and
whether the `name` field child has already been passed (so that exactly the
first `name`-labelled child is flagged as the parent's name node, as
tree-sitter's `child_by_field_name` returns the first match). -/
def visitList (b : Binder) (pk : String) (nameSeen : Bool) (l : List TSNode) : Binder :=
  match l with
  | [] => b
  | c :: rest =>
    let isName := (c.fieldOf == some "name") && !nameSeen
    let b' := visitNode b ⟨some pk, isName⟩ c
    visitList b' pk (nameSeen || c.fieldOf == some "name") rest
termination_by 3 * sizeOf l
decreasing_by
  all_goals simp_wf
  all_goals omega

/-- `Binder::bind_function_declaration`. -/
def bindFunctionDeclaration (b : Binder) (ctx : Ctx) (n : TSNode) : Binder :=
  let b1 :=
    match childByField n "name" with
    | some name =>
      let flags0 := SymbolFlags.FUNCTION ||| SymbolFlags.HOISTED
      let flags1 := if hasChildKind n "async" then flags0 ||| SymbolFlags.ASYNC else flags0
      let flags2 :=
        if ctx.parentKind = some "export_statement" then flags1 ||| SymbolFlags.EXPORTED
        else flags1
      b.createSym (nodeText b.source name) flags2 n.rangeOf name.rangeOf
    | none => b
  match hbody : childByField n "body" with
  | some body =>
    let p := b1.symbol_table.create_scope ScopeKind.Function b1.current_scope body.rangeOf
    let b2 := { b1 with symbol_table := p.2, current_scope := p.1 }
    let b3 :=
      match childByField n "parameters" with
      | some params => bindParameters b2 params
      | none => b2
    let b4 := visitList b3 body.kindOf false body.childrenOf
    { b4 with current_scope := b1.current_scope }
  | none => b1
termination_by 3 * sizeOf n + 1
decreasing_by
  all_goals simp_wf
  all_goals
    (have hx := sizeOf_childByField hbody
     have hy := TSNode.sizeOf_childrenOf body
     omega)

/-- `Binder::bind_arrow_function`.  The body is visited with parent kind
`arrow_function`; the body child is never the parent's `name` field child
(it carries the `body` label, and node equality in the source is identity). -/
def bindArrowFunction (b : Binder) (n : TSNode) : Binder :=
  let p := b.symbol_table.create_scope ScopeKind.Function b.current_scope n.rangeOf
  let b1 := { b with symbol_table := p.2, current_scope := p.1 }
  let b2 :=
    match childByField n "parameters" with
    | some params =>
      if params.kindOf = "identifier" then
        b1.createSym (nodeText b1.source params) SymbolFlags.PARAMETER params.rangeOf
          params.rangeOf
      else bindParameters b1 params
    | none =>
      match childByField n "parameter" with
      | some param =>
        b1.createSym (nodeText b1.source param) SymbolFlags.PARAMETER param.rangeOf
          param.rangeOf
      | none => b1
  let b3 :=
    match hbody : childByField n "body" with
    | some body => visitNode b2 ⟨some n.kindOf, false⟩ body
    | none => b2
  { b3 with current_scope := b.current_scope }
termination_by 3 * sizeOf n + 1
decreasing_by
  all_goals simp_wf
  all_goals
    (have hx := sizeOf_childByField hbody
     omega)

/-- `Binder::bind_class_declaration`. -/
def bindClassDeclaration (b : Binder) (ctx : Ctx) (n : TSNode) : Binder :=
  let b1 :=
    match childByField n "name" with
    | some name =>
      let flags :=
        if ctx.parentKind = some "export_statement" then
          SymbolFlags.CLASS ||| SymbolFlags.EXPORTED
        else SymbolFlags.CLASS
      b.createSym (nodeText b.source name) flags n.rangeOf name.rangeOf
    | none => b
  match hbody : childByField n "body" with
  | some body =>
    let p := b1.symbol_table.create_scope ScopeKind.Class b1.current_scope body.rangeOf
    let b2 := { b1 with symbol_table := p.2, current_scope := p.1 }
    let b3 := visitList b2 body.kindOf false body.childrenOf
    { b3 with current_scope := b1.current_scope }
  | none => b1
termination_by 3 * sizeOf n + 1
decreasing_by
  all_goals simp_wf
  all_goals
    (have hx := sizeOf_childByField hbody
     have hy := TSNode.sizeOf_childrenOf body
     omega)

/-- `Binder::bind_interface_declaration`. -/
def bindInterfaceDeclaration (b : Binder) (ctx : Ctx) (n : TSNode) : Binder :=
  let b1 :=
    match childByField n "name" with
    | some name =>
      let flags :=
        if ctx.parentKind = some "export_statement" then
          SymbolFlags.INTERFACE ||| SymbolFlags.EXPORTED
        else SymbolFlags.INTERFACE
      b.createSym (nodeText b.source name) flags n.rangeOf name.rangeOf
    | none => b
  visitList b1 n.kindOf false n.childrenOf
termination_by 3 * sizeOf n + 1
decreasing_by
  all_goals simp_wf
  all_goals
    (have hx := TSNode.sizeOf_childrenOf n
     omega)

/-- `Binder::bind_type_alias_declaration`. -/
def bindTypeAliasDeclaration (b : Binder) (ctx : Ctx) (n : TSNode) : Binder :=
  let b1 :=
    match childByField n "name" with
    | some name =>
      let flags :=
        if ctx.parentKind = some "export_statement" then
          SymbolFlags.TYPE_ALIAS ||| SymbolFlags.EXPORTED
        else SymbolFlags.TYPE_ALIAS
      b.createSym (nodeText b.source name) flags n.rangeOf name.rangeOf
    | none => b
  visitList b1 n.kindOf false n.childrenOf
termination_by 3 * sizeOf n + 1
decreasing_by
  all_goals simp_wf
  all_goals
    (have hx := TSNode.sizeOf_childrenOf n
     omega)

/-- `Binder::bind_enum_declaration`; enum members are not bound. -/
def bindEnumDeclaration (b : Binder) (ctx : Ctx) (n : TSNode) : Binder :=
  let b1 :=
    match childByField n "name" with
    | some name =>
      let flags :=
        if ctx.parentKind = some "export_statement" then
          SymbolFlags.ENUM ||| SymbolFlags.EXPORTED
        else SymbolFlags.ENUM
      b.createSym (nodeText b.source name) flags n.rangeOf name.rangeOf
    | none => b
  visitList b1 n.kindOf false n.childrenOf
termination_by 3 * sizeOf n + 1
decreasing_by
  all_goals simp_wf
  all_goals
    (have hx := TSNode.sizeOf_childrenOf n
     omega)

/-- `Binder::bind_lexical_declaration`: `const`/`let`. -/
def bindLexicalDeclaration (b : Binder) (n : TSNode) : Binder :=
  let flags :=
    if hasChildKind n "const" then SymbolFlags.VARIABLE ||| SymbolFlags.CONST
    else SymbolFlags.VARIABLE ||| SymbolFlags.LET
  bindVariableDeclaratorsList b flags n.childrenOf
termination_by 3 * sizeOf n + 1
decreasing_by
  all_goals simp_wf
  all_goals
    (have hx := TSNode.sizeOf_childrenOf n
     omega)

/-- `Binder::bind_variable_declaration`: `var`, flagged HOISTED. -/
def bindVariableDeclaration (b : Binder) (n : TSNode) : Binder :=
  bindVariableDeclaratorsList b (SymbolFlags.VARIABLE ||| SymbolFlags.HOISTED) n.childrenOf
termination_by 3 * sizeOf n + 1
decreasing_by
  all_goals simp_wf
  all_goals
    (have hx := TSNode.sizeOf_childrenOf n
     omega)

/-- `Binder::bind_variable_declarators`: bind each declarator's name pattern
and visit its initializer for references.  The initializer is visited with
parent kind `variable_declarator`; it is the `value` field child, never the
`name` field child (node equality in the source is identity). -/
def bindVariableDeclaratorsList (b : Binder) (flags : Nat) (l : List TSNode) : Binder :=
  match l with
  | [] => b
  | child :: rest =>
    let b' :=
      if child.kindOf = "variable_declarator" then
        let b1 :=
          match childByField child "name" with
          | some name_node => bindPattern b name_node flags
          | none => b
        match hv : childByField child "value" with
        | some value => visitNode b1 ⟨some child.kindOf, false⟩ value
        | none => b1
      else b
    bindVariableDeclaratorsList b' flags rest
termination_by 3 * sizeOf l
decreasing_by
  all_goals simp_wf
  all_goals
    first
    | omega
    | (have hx := sizeOf_childByField hv
       omega)

/-- `Binder::bind_method_definition`. -/
def bindMethodDefinition (b : Binder) (n : TSNode) : Binder :=
  let b1 :=
    match childByField n "name" with
    | some name =>
      let flags0 := SymbolFlags.METHOD
      let flags1 := if hasChildKind n "static" then flags0 ||| SymbolFlags.STATIC else flags0
      let flags2 := if hasChildKind n "async" then flags1 ||| SymbolFlags.ASYNC else flags1
      b.createSym (nodeText b.source name) flags2 n.rangeOf name.rangeOf
    | none => b
  match hbody : childByField n "body" with
  | some body =>
    let p := b1.symbol_table.create_scope ScopeKind.Function b1.current_scope body.rangeOf
    let b2 := { b1 with symbol_table := p.2, current_scope := p.1 }
    let b3 :=
      match childByField n "parameters" with
      | some params => bindParameters b2 params
      | none => b2
    let b4 := visitList b3 body.kindOf false body.childrenOf
    { b4 with current_scope := b1.current_scope }
  | none => b1
termination_by 3 * sizeOf n + 1
decreasing_by
  all_goals simp_wf
  all_goals
    (have hx := sizeOf_childByField hbody
     have hy := TSNode.sizeOf_childrenOf body
     omega)

/-- `Binder::bind_block`: no new scope when the immediate parent is a
function-like declaration whose body this block is. -/
def bindBlock (b : Binder) (ctx : Ctx) (n : TSNode) : Binder :=
  let parentMakesScope : Bool :=
    match ctx.parentKind with
    | some pk =>
      decide (pk = "function_declaration" ∨ pk = "function" ∨ pk = "arrow_function"
        ∨ pk = "method_definition")
    | none => false
  if parentMakesScope then visitList b n.kindOf false n.childrenOf
  else
    let p := b.symbol_table.create_scope ScopeKind.Block b.current_scope n.rangeOf
    let b1 := { b with symbol_table := p.2, current_scope := p.1 }
    let b2 := visitList b1 n.kindOf false n.childrenOf
    { b2 with current_scope := b.current_scope }
termination_by 3 * sizeOf n + 1
decreasing_by
  all_goals simp_wf
  all_goals
    (have hx := TSNode.sizeOf_childrenOf n
     omega)

/-- `Binder::bind_control_flow`: plain child traversal. -/
def bindControlFlow (b : Binder) (n : TSNode) : Binder :=
  visitChildren b n
termination_by 3 * sizeOf n + 1
decreasing_by
  all_goals simp_wf
  all_goals omega

/-- `Binder::bind_catch_clause`. -/
def bindCatchClause (b : Binder) (n : TSNode) : Binder :=
  let p := b.symbol_table.create_scope ScopeKind.Catch b.current_scope n.rangeOf
  let b1 := { b with symbol_table := p.2, current_scope := p.1 }
  let b2 :=
    match childByField n "parameter" with
    | some param => bindPattern b1 param SymbolFlags.PARAMETER
    | none => b1
  let b3 := visitList b2 n.kindOf false n.childrenOf
  { b3 with current_scope := b.current_scope }
termination_by 3 * sizeOf n + 1
decreasing_by
  all_goals simp_wf
  all_goals
    (have hx := TSNode.sizeOf_childrenOf n
     omega)

end

/-- `Binder::bind`: visit the root (whose parent is `None`) and hand back
the table. -/
def Binder.bind (b : Binder) (tree : TSNode) : SymbolTable :=
  (visitNode b ⟨none, false⟩ tree).symbol_table

/-- `bind_document`. -/
def bind_document (tree : TSNode) (source : String) : SymbolTable :=
  (Binder.new source).bind tree

/-! ### Claim C8 -/

/-- The node kinds `visit_node` dispatches on; everything else falls through
to child traversal. -/
def KnownKind (k : String) : Prop :=
  k = "function_declaration" ∨ k = "class_declaration" ∨ k = "interface_declaration"
  ∨ k = "type_alias_declaration" ∨ k = "enum_declaration" ∨ k = "lexical_declaration"
  ∨ k = "variable_declaration" ∨ k = "import_statement" ∨ k = "arrow_function"
  ∨ k = "method_definition" ∨ k = "statement_block" ∨ k = "if_statement"
  ∨ k = "for_statement" ∨ k = "for_in_statement" ∨ k = "for_of_statement"
  ∨ k = "while_statement" ∨ k = "do_statement" ∨ k = "switch_statement"
  ∨ k = "catch_clause" ∨ k = "identifier"

/-- Claim C8: binding is total.  `bind_document` is defined for every tree
and source (the embedding is a total function, mirroring the absence of any
panicking path in the source); a node of unrecognized kind falls through to
plain child traversal; a `function_declaration` with neither a name nor a
body changes nothing and the walk continues; an `interface_declaration`
missing its name skips symbol creation but still walks its children. -/
theorem c8_binder_total (tree : TSNode) (source : String) :
    (∃ t : SymbolTable, bind_document tree source = t)
    ∧ (∀ (b : Binder) (ctx : Ctx) (n : TSNode), ¬ KnownKind n.kindOf →
        visitNode b ctx n = visitChildren b n)
    ∧ (∀ (b : Binder) (ctx : Ctx) (n : TSNode), n.kindOf = "function_declaration" →
        childByField n "name" = none → childByField n "body" = none →
        visitNode b ctx n = b)
    ∧ (∀ (b : Binder) (ctx : Ctx) (n : TSNode), n.kindOf = "interface_declaration" →
        childByField n "name" = none →
        visitNode b ctx n = visitList b n.kindOf false n.childrenOf) := by
  refine ⟨⟨_, rfl⟩, ?_, ?_, ?_⟩
  · intro b ctx n hk
    simp only [KnownKind, not_or] at hk
    obtain ⟨h1, h2, h3, h4, h5, h6, h7, h8, h9, h10, h11, h12, h13, h14, h15, h16, h17,
      h18, h19, h20⟩ := hk
    rw [visitNode]
    simp [h1, h2, h3, h4, h5, h6, h7, h8, h9, h10, h11, h12, h13, h14, h15, h16, h17,
      h18, h19, h20]
  · intro b ctx n hk hn hb
    rw [visitNode, if_pos hk, bindFunctionDeclaration, hn, hb]
  · intro b ctx n hk hn
    rw [visitNode]
    rw [if_neg (by simp [hk]), if_neg (by simp [hk]), if_pos hk,
      bindInterfaceDeclaration, hn]

/-- A one-node tree of an unrecognized kind, used by the C8 witness. -/
def errNode : TSNode := TSNode.mk "ERROR" none rW 0 0 []

/-- A nameless, bodyless `function_declaration` node. -/
def namelessFn : TSNode := TSNode.mk "function_declaration" none rW 0 0 []

/-- Witness for C8 at concrete inputs. -/
theorem c8_binder_total_witness :
    bind_document errNode "" = SymbolTable.new
      ∧ visitNode (Binder.new "") ⟨none, false⟩ errNode
          = visitChildren (Binder.new "") errNode
      ∧ visitNode (Binder.new "") ⟨none, false⟩ namelessFn = Binder.new "" := by
  have hUnknown : visitNode (Binder.new "") ⟨none, false⟩ errNode
      = visitChildren (Binder.new "") errNode :=
    (c8_binder_total errNode "").2.1 (Binder.new "") ⟨none, false⟩ errNode
      (by simp [KnownKind, errNode, TSNode.kindOf])
  refine ⟨?_, hUnknown, ?_⟩
  · show (visitNode (Binder.new "") ⟨none, false⟩ errNode).symbol_table = SymbolTable.new
    rw [hUnknown, visitChildren]
    show (visitList (Binder.new "") "ERROR" false []).symbol_table = SymbolTable.new
    rw [visitList]
    rfl
  · exact (c8_binder_total namelessFn "").2.2.1 (Binder.new "") ⟨none, false⟩ namelessFn
      rfl rfl rfl

/-! ### Claim C9 -/

/-- A structure-preserving simulation of `t₁` inside `t₂` along a scope-id
translation `σ` and a symbol-id translation `τ`: corresponding scopes have
the same kind, range and (translated) tree links and namespaces, and
corresponding symbols have the same name, flags, ranges and reference
sequence. -/
def OneSim (σ τ : Nat → Nat) (t₁ t₂ : SymbolTable) : Prop :=
  σ t₁.root_scope_id = t₂.root_scope_id
  ∧ (∀ id s, t₁.get_scope id = some s → ∃ s', t₂.get_scope (σ id) = some s'
      ∧ s'.kind = s.kind ∧ s'.range = s.range
      ∧ s'.parent = s.parent.map σ
      ∧ s'.children = s.children.map σ
      ∧ (∀ nm sid, mapGet s.symbols nm = some sid → mapGet s'.symbols nm = some (τ sid))
      ∧ (∀ nm sid, mapGet s.type_symbols nm = some sid →
          mapGet s'.type_symbols nm = some (τ sid)))
  ∧ (∀ id sym, t₁.get_symbol id = some sym → ∃ sym', t₂.get_symbol (τ id) = some sym'
      ∧ sym'.name = sym.name ∧ sym'.flags = sym.flags
      ∧ sym'.declaration_range = sym.declaration_range
      ∧ sym'.name_range = sym.name_range
      ∧ sym'.references = sym.references
      ∧ sym'.scope_id = σ sym.scope_id)

/-- Structural equivalence of two tables: simulations in both directions
(ids need not match, shapes and contents must). -/
def StructEquiv (t₁ t₂ : SymbolTable) : Prop :=
  (∃ σ τ, OneSim σ τ t₁ t₂) ∧ (∃ σ τ, OneSim σ τ t₂ t₁)

theorem oneSim_id (t : SymbolTable) : OneSim id id t t := by
  refine ⟨rfl, ?_, ?_⟩
  · intro idn s hs
    refine ⟨s, hs, rfl, rfl, ?_, ?_, ?_, ?_⟩
    · cases s.parent <;> rfl
    · simp
    · intro nm sid h
      exact h
    · intro nm sid h
      exact h
  · intro idn sym hs
    exact ⟨sym, hs, rfl, rfl, rfl, rfl, rfl, rfl⟩

theorem structEquiv_refl (t : SymbolTable) : StructEquiv t t :=
  ⟨⟨id, id, oneSim_id t⟩, ⟨id, id, oneSim_id t⟩⟩

/-- Claim C9: binding is deterministic up to structure — two runs of
`bind_document` on the same tree and source yield structurally equivalent
tables (the embedding is a pure function, so the two runs coincide and the
identity translations witness the equivalence). -/
theorem c9_bind_deterministic (tree : TSNode) (source : String) :
    StructEquiv (bind_document tree source) (bind_document tree source) :=
  structEquiv_refl (bind_document tree source)

end TsAnalysis
